import Mathlib

/-!
The `StatsAggregation` builder of `elastic.v5`.

A shallow embedding of `vendor/gopkg.in/olivere/elastic.v5/search_aggs_metrics_stats.go`
and the properties of its serialisation method `Source()`.

Modelling conventions.

* `interface{}` values are the JSON-representable values of type `Value`.
* A Go `error` is a `GoError`; the `nil` error is `none`.  A Go result pair
  `(interface{}, error)` is a pair `Value × Option GoError`; `return nil, err`
  is `(Value.nil, some err)`.
* A Go `map[string]T` is a `GoMap T`: the list of its entries kept in one
  canonical order (strictly increasing keys), so that two maps with the same
  entries are equal as Lean terms.  A `nil` map is `none : Option (GoMap T)`.
* `range` over a Go map visits the entries in an order the language leaves
  unspecified.  `Source` therefore takes that visiting order as an argument, and
  the theorems hold for every order that is a permutation of the map's entries.
* The pointer receiver `a *StatsAggregation` is modelled by state passing: a
  setter takes the state of the builder and returns the state after the call.
  Where the identity of the receiver matters, the methods are also given on a
  `Store` of builders addressed by pointers (`FieldAt`, ..., `SourceAt`).
* Nested `Source()` calls are total and do not change the builder; the calls that
  `Source` makes are recorded by `StatsAggregation.SourceTraced`.
-/

namespace Elastic

/-! ## Keys and Go maps -/

/-- The code points of a key; keys are ordered by comparing these lists. -/
def keyCode (k : String) : List ℕ := k.toList.map Char.toNat

/-- The strict order on keys used to keep map entries in canonical order. -/
def keyLt (a b : String) : Prop := keyCode a < keyCode b

instance keyLt.decidable : DecidableRel keyLt :=
  fun a b => inferInstanceAs (Decidable (keyCode a < keyCode b))

/-- The entries of a map form a canonical list when their keys strictly increase. -/
def SortedKeys {α : Type} (l : List (String × α)) : Prop :=
  l.Pairwise (fun p q => keyLt p.1 q.1)

/-- The read `m[k]` on the entries of a map; `none` when the key is absent. -/
def mapLookup {α : Type} (k : String) : List (String × α) → Option α
  | [] => none
  | (k', v') :: rest => if k = k' then some v' else mapLookup k rest

/-- The write `m[k] = v` on the entries of a map: inserts the key, or overwrites
the value bound to it. -/
def mapAssign {α : Type} (k : String) (v : α) : List (String × α) → List (String × α)
  | [] => [(k, v)]
  | (k', v') :: rest =>
    if keyLt k k' then (k, v) :: (k', v') :: rest
    else if k = k' then (k, v) :: rest
    else (k', v') :: mapAssign k v rest

/-- The keys of a list of entries. -/
def mapKeys {α : Type} (l : List (String × α)) : List String := l.map Prod.fst

theorem keyCode_injective : Function.Injective keyCode := by
  intro a b h
  unfold keyCode at h
  have hc : Function.Injective Char.toNat := by
    intro x y hxy
    apply Char.ext
    apply UInt32.ext
    exact hxy
  exact String.toList_inj.mp (List.map_injective_iff.mpr hc h)

theorem keyLt_irrefl (a : String) : ¬ keyLt a a := lt_irrefl (keyCode a)

theorem keyLt_trans {a b c : String} (h₁ : keyLt a b) (h₂ : keyLt b c) : keyLt a c :=
  lt_trans (α := List ℕ) h₁ h₂

theorem keyLt_trichotomy (a b : String) : keyLt a b ∨ a = b ∨ keyLt b a := by
  rcases lt_trichotomy (keyCode a) (keyCode b) with h | h | h
  · exact Or.inl h
  · exact Or.inr (Or.inl (keyCode_injective h))
  · exact Or.inr (Or.inr h)

theorem mem_mapAssign {α : Type} {k : String} {v : α} {l : List (String × α)}
    {p : String × α} (hp : p ∈ mapAssign k v l) : p = (k, v) ∨ p ∈ l := by
  induction l with
  | nil =>
    simp only [mapAssign, List.mem_singleton] at hp
    exact Or.inl hp
  | cons hd tl ih =>
    obtain ⟨k', v'⟩ := hd
    simp only [mapAssign] at hp
    split_ifs at hp with h₁ h₂
    · rcases List.mem_cons.mp hp with h | h
      · exact Or.inl h
      · exact Or.inr h
    · rcases List.mem_cons.mp hp with h | h
      · exact Or.inl h
      · exact Or.inr (List.mem_cons_of_mem _ h)
    · rcases List.mem_cons.mp hp with h | h
      · exact Or.inr (h ▸ List.mem_cons_self _ _)
      · rcases ih h with h' | h'
        · exact Or.inl h'
        · exact Or.inr (List.mem_cons_of_mem _ h')

theorem sortedKeys_mapAssign {α : Type} (k : String) (v : α) {l : List (String × α)}
    (hl : SortedKeys l) : SortedKeys (mapAssign k v l) := by
  induction l with
  | nil => simp [mapAssign, SortedKeys]
  | cons hd tl ih =>
    obtain ⟨k', v'⟩ := hd
    have hl' := List.pairwise_cons.mp hl
    simp only [mapAssign]
    split_ifs with h₁ h₂
    · refine List.pairwise_cons.mpr ⟨?_, hl⟩
      intro q hq
      rcases List.mem_cons.mp hq with h | h
      · subst h; exact h₁
      · exact keyLt_trans h₁ (hl'.1 q h)
    · subst h₂
      exact List.pairwise_cons.mpr ⟨hl'.1, hl'.2⟩
    · refine List.pairwise_cons.mpr ⟨?_, ih hl'.2⟩
      intro q hq
      rcases mem_mapAssign hq with h | h
      · subst h
        rcases keyLt_trichotomy k k' with h | h | h
        · exact absurd h h₁
        · exact absurd h h₂
        · exact h
      · exact hl'.1 q h

/-- A non-nil Go `map[string]T`: its entries in canonical order. -/
structure GoMap (α : Type) where
  /-- The entries of the map, by strictly increasing key. -/
  entries : List (String × α)
  /-- The keys are strictly increasing, hence pairwise distinct. -/
  sorted : SortedKeys entries

/-- The map `make(map[string]T)`: non-nil and empty. -/
def GoMap.make {α : Type} : GoMap α := ⟨[], List.Pairwise.nil⟩

/-- The write `m[k] = v` on a non-nil map. -/
def GoMap.assign {α : Type} (m : GoMap α) (k : String) (v : α) : GoMap α :=
  ⟨mapAssign k v m.entries, sortedKeys_mapAssign k v m.sorted⟩

/-- The read `m[k]` on a non-nil map. -/
def GoMap.lookup {α : Type} (m : GoMap α) (k : String) : Option α :=
  mapLookup k m.entries

/-- The builtin `len(m)` on a map that may be nil: the number of entries, and `0`
for the nil map. -/
def mapLen {α : Type} : Option (GoMap α) → ℕ
  | none => 0
  | some m => m.entries.length

/-- The entries of a map that may be nil; the nil map has none. -/
def mapEntries {α : Type} : Option (GoMap α) → List (String × α)
  | none => []
  | some m => m.entries

/-! ## Values, errors and the nested serialisers -/

/-- A Go `error` value that is not nil. -/
structure GoError where
  /-- The message of the error. -/
  msg : String
deriving DecidableEq, Repr

/-- The values of type `interface{}` that `Source()` methods exchange: the
JSON-representable values.  `Value.nil` is the nil interface value. -/
inductive Value where
  | nil : Value
  | bool : Bool → Value
  | num : Int → Value
  | str : String → Value
  | arr : List Value → Value
  | map : List (String × Value) → Value

/-- Modelled from the spec: the type `Script` and its method `Source()` are declared
in another file of the package.  The spec describes it as "a script object" with
"the script's own serialization", which may report an error; a script is
represented here by the pair `(interface{}, error)` that its `Source()` returns. -/
structure Script where
  /-- The pair returned by the script's `Source()`. -/
  Source : Value × Option GoError

/-- Modelled from the spec: the interface `Aggregation` is declared in another file
of the package.  The spec describes it as "a generic interface (`Aggregation`) that
any aggregation builder implements by exposing a `Source()` method returning a
serializable value", failing "on internal failure"; an aggregation is represented
here by the pair `(interface{}, error)` that its `Source()` returns. -/
structure Aggregation where
  /-- The pair returned by the aggregation's `Source()`. -/
  Source : Value × Option GoError

/-! ## The builder -/

/-- The struct `StatsAggregation` (lines 12-18). `script` is a pointer and may be
nil; the two maps may be nil. -/
structure StatsAggregation where
  field : String
  script : Option Script
  format : String
  subAggregations : Option (GoMap Aggregation)
  meta : Option (GoMap Value)

/-- The constructor `NewStatsAggregation` (lines 20-24): every field has its zero
value except `subAggregations`, which is `make(map[string]Aggregation)`. -/
def NewStatsAggregation : StatsAggregation :=
  { field := ""
    script := none
    format := ""
    subAggregations := some GoMap.make
    meta := none }

/-- The setter `Field` (lines 26-29): `a.field = field; return a`. -/
def StatsAggregation.Field (a : StatsAggregation) (field : String) : StatsAggregation :=
  { a with field := field }

/-- The setter `Script` (lines 31-34): `a.script = script; return a`. -/
def StatsAggregation.Script (a : StatsAggregation) (script : Option Elastic.Script) :
    StatsAggregation :=
  { a with script := script }

/-- The setter `Format` (lines 36-39): `a.format = format; return a`. -/
def StatsAggregation.Format (a : StatsAggregation) (format : String) : StatsAggregation :=
  { a with format := format }

/-- The setter `SubAggregation` (lines 41-44):
`a.subAggregations[name] = subAggregation; return a`.  A write to a nil map is a
run-time panic in Go: the result is then `none`. -/
def StatsAggregation.SubAggregation (a : StatsAggregation) (name : String)
    (subAggregation : Aggregation) : Option StatsAggregation :=
  match a.subAggregations with
  | none => none
  | some m => some { a with subAggregations := some (m.assign name subAggregation) }

/-- The setter `Meta` (lines 46-50): `a.meta = metaData; return a`. -/
def StatsAggregation.Meta (a : StatsAggregation) (metaData : Option (GoMap Value)) :
    StatsAggregation :=
  { a with meta := metaData }

/-- Lines 69-75 of `Source`: when a script is attached, its `Source()` is called; an
error is handed back, otherwise `opts["script"] = src`. -/
def sourceScript (script : Option Script) (opts : List (String × Value)) :
    List (String × Value) × Option GoError :=
  match script with
  | none => (opts, none)
  | some s =>
    match s.Source with
    | (_, some err) => (opts, some err)
    | (src, none) => (mapAssign "script" src opts, none)

/-- Lines 84-90 of `Source`: the body of
`for name, aggregate := range a.subAggregations`, run over the entries in the order
in which the loop visits them.  The first error ends the loop. -/
def rangeSubAggregations :
    List (String × Aggregation) → List (String × Value) →
      List (String × Value) × Option GoError
  | [], aggsMap => (aggsMap, none)
  | (name, aggregate) :: rest, aggsMap =>
    match aggregate.Source with
    | (_, some err) => (aggsMap, some err)
    | (src, none) => rangeSubAggregations rest (mapAssign name src aggsMap)

/-- Lines 80-91 of `Source`: when `len(a.subAggregations) > 0`, the map `aggsMap` is
filled by the loop and stored under `"aggregations"`.  `aggsMap` is a reference, so
the value seen under `"aggregations"` at the end is the filled map. -/
def sourceSubAggregations (subAggregations : Option (GoMap Aggregation))
    (order : List (String × Aggregation)) (source : List (String × Value)) :
    List (String × Value) × Option GoError :=
  if mapLen subAggregations > 0 then
    match rangeSubAggregations order [] with
    | (_, some err) => (source, some err)
    | (aggsMap, none) => (mapAssign "aggregations" (Value.map aggsMap) source, none)
  else (source, none)

/-- Lines 93-96 of `Source`: `if len(a.meta) > 0 { source["meta"] = a.meta }`. -/
def sourceMeta (metaData : Option (GoMap Value)) (source : List (String × Value)) :
    List (String × Value) :=
  match metaData with
  | none => source
  | some m => if m.entries.length > 0 then mapAssign "meta" (Value.map m.entries) source
    else source

/-- The method `Source` (lines 52-99).  `order` is the order in which
`range a.subAggregations` visits the entries.  `opts` is a reference stored under
`"stats"` before it is filled, so the value seen under `"stats"` at the end is the
filled map. -/
def StatsAggregation.Source (a : StatsAggregation) (order : List (String × Aggregation)) :
    Value × Option GoError :=
  let opts : List (String × Value) := []
  let opts := if a.field ≠ "" then mapAssign "field" (Value.str a.field) opts else opts
  match sourceScript a.script opts with
  | (_, some err) => (Value.nil, some err)
  | (opts, none) =>
    let opts := if a.format ≠ "" then mapAssign "format" (Value.str a.format) opts else opts
    let source := mapAssign "stats" (Value.map opts) []
    match sourceSubAggregations a.subAggregations order source with
    | (_, some err) => (Value.nil, some err)
    | (source, none) => (Value.map (sourceMeta a.meta source), none)

/-! ## Vocabulary of the statements -/

/-- The attached script, if there is one, serialises without error. -/
def ScriptSucceeds (a : StatsAggregation) : Prop :=
  ∀ s, a.script = some s → s.Source.2 = none

/-- Every sub-aggregation held by the builder serialises without error. -/
def SubAggregationsSucceed (a : StatsAggregation) : Prop :=
  ∀ p ∈ mapEntries a.subAggregations, p.2.Source.2 = none

/-- The list `order` is an order in which `range a.subAggregations` may visit the
entries: any permutation of them. -/
def VisitOrder (a : StatsAggregation) (order : List (String × Aggregation)) : Prop :=
  order.Perm (mapEntries a.subAggregations)

/-- The entries of a map with `f` applied to every value. -/
def mapValues {α β : Type} (f : α → β) (l : List (String × α)) : List (String × β) :=
  l.map (fun p => (p.1, f p.2))

/-- The options map after lines 69-75 when the script, if any, serialises. -/
def assignScript (script : Option Script) (opts : List (String × Value)) :
    List (String × Value) :=
  match script with
  | none => opts
  | some s => mapAssign "script" s.Source.1 opts

/-- The options map that lines 62-78 assemble when the script serialises. -/
def statsOptions (a : StatsAggregation) : List (String × Value) :=
  let opts : List (String × Value) := []
  let opts := if a.field ≠ "" then mapAssign "field" (Value.str a.field) opts else opts
  let opts := assignScript a.script opts
  if a.format ≠ "" then mapAssign "format" (Value.str a.format) opts else opts

/-- The map `aggsMap` after the loop of lines 84-90 has visited `order` without
meeting an error. -/
def aggsMapOf (order : List (String × Aggregation)) : List (String × Value) :=
  order.foldl (fun aggsMap p => mapAssign p.1 p.2.Source.1 aggsMap) []

/-- The top-level map that `Source` returns when no nested serialiser fails and the
loop visits `order`. -/
def sourceOf (a : StatsAggregation) (order : List (String × Aggregation)) :
    List (String × Value) :=
  let source := mapAssign "stats" (Value.map (statsOptions a)) []
  let source := if mapLen a.subAggregations > 0 then
    mapAssign "aggregations" (Value.map (aggsMapOf order)) source else source
  sourceMeta a.meta source

/-! ## Sample builders -/

/-- A sub-aggregation that serialises to `{"min": {"field": "grade"}}`. -/
def sampleMin : Aggregation :=
  ⟨(Value.map [("min", Value.map [("field", Value.str "grade")])], none)⟩

/-- A sub-aggregation that serialises to `{"max": {"field": "grade"}}`. -/
def sampleMax : Aggregation :=
  ⟨(Value.map [("max", Value.map [("field", Value.str "grade")])], none)⟩

/-- A script that serialises to `{"inline": "doc.grade.value"}`. -/
def sampleScript : Script :=
  ⟨(Value.map [("inline", Value.str "doc.grade.value")], none)⟩

/-- The metadata `{"owner": "qa"}`. -/
def sampleMeta : GoMap Value := GoMap.make.assign "owner" (Value.str "qa")

/-- A builder with every component set: field, script, format, the two
sub-aggregations `low` and `high`, and metadata. -/
def sampleBuilder : StatsAggregation :=
  { field := "grade"
    script := some sampleScript
    format := "0.00"
    subAggregations := some ((GoMap.make.assign "low" sampleMin).assign "high" sampleMax)
    meta := some sampleMeta }

/-- A visiting order of the sub-aggregations of `sampleBuilder`: `low` first. -/
def sampleOrder : List (String × Aggregation) := [("low", sampleMin), ("high", sampleMax)]

/-- A builder with a field and a format, no script, no sub-aggregation, and a
metadata map that is allocated but empty. -/
def plainBuilder : StatsAggregation :=
  ((NewStatsAggregation.Field "grade").Format "0.00").Meta (some GoMap.make)

/-- The error reported by `failingScript`. -/
def scriptError : GoError := ⟨"script cannot be serialised"⟩

/-- A script whose `Source()` reports `scriptError`. -/
def failingScript : Script := ⟨(Value.nil, some scriptError)⟩

/-- The error reported by `failingAggregation`. -/
def subAggregationError : GoError := ⟨"sub-aggregation cannot be serialised"⟩

/-- A sub-aggregation whose `Source()` reports `subAggregationError`. -/
def failingAggregation : Aggregation := ⟨(Value.nil, some subAggregationError)⟩

/-- The sample builder with a third sub-aggregation `broken`, which fails. -/
def brokenSubBuilder : StatsAggregation :=
  { sampleBuilder with
    subAggregations :=
      some (((GoMap.make.assign "low" sampleMin).assign "high" sampleMax).assign
        "broken" failingAggregation) }

/-- A visiting order of the sub-aggregations of `brokenSubBuilder`: the failing one
is visited last. -/
def brokenSubOrder : List (String × Aggregation) :=
  [("low", sampleMin), ("high", sampleMax), ("broken", failingAggregation)]

/-- The builder `brokenSubBuilder` with a failing script as well. -/
def brokenScriptBuilder : StatsAggregation :=
  brokenSubBuilder.Script (some failingScript)

/-- A call of one of the four setters `Field`, `Format`, `Script`, `Meta`, with its
argument. -/
inductive Setter where
  | Field (field : String)
  | Format (format : String)
  | Script (script : Option Elastic.Script)
  | Meta (metaData : Option (GoMap Value))

/-- The builder after the setter call `c`. -/
def Setter.call (a : StatsAggregation) (c : Setter) : StatsAggregation :=
  match c with
  | Setter.Field field => a.Field field
  | Setter.Format format => a.Format format
  | Setter.Script script => a.Script script
  | Setter.Meta metaData => a.Meta metaData

/-- The builder after a chain of setter calls, the first call of the list first. -/
def callAll (a : StatsAggregation) (calls : List Setter) : StatsAggregation :=
  calls.foldl Setter.call a

/-! ## Chains of calls -/

/-- A call of one of the five setters, with its arguments. -/
inductive BuilderCall where
  | Field (field : String)
  | Script (script : Option Elastic.Script)
  | Format (format : String)
  | SubAggregation (name : String) (subAggregation : Aggregation)
  | Meta (metaData : Option (GoMap Value))

/-- The builder after the call `c`; `none` when the call panics. -/
def BuilderCall.run (a : StatsAggregation) (c : BuilderCall) : Option StatsAggregation :=
  match c with
  | BuilderCall.Field field => some (a.Field field)
  | BuilderCall.Script script => some (a.Script script)
  | BuilderCall.Format format => some (a.Format format)
  | BuilderCall.SubAggregation name subAggregation => a.SubAggregation name subAggregation
  | BuilderCall.Meta metaData => some (a.Meta metaData)

/-- The builder after a chain of calls, the first call of the list first; `none`
when one of the calls panics. -/
def runCalls (a : StatsAggregation) : List BuilderCall → Option StatsAggregation
  | [] => some a
  | c :: rest =>
    match BuilderCall.run a c with
    | none => none
    | some b => runCalls b rest

/-- The builder after `SubAggregation` has been called with each pair of the list,
the first pair first; `none` when one of the calls panics. -/
def addSubAggregations (a : StatsAggregation) :
    List (String × Aggregation) → Option StatsAggregation
  | [] => some a
  | (name, subAggregation) :: rest =>
    match a.SubAggregation name subAggregation with
    | none => none
    | some b => addSubAggregations b rest

/-! ## The store of builders -/

/-- The store: the builder held at each address; `none` at an address that holds
no builder.  A pointer `*StatsAggregation` is an address. -/
abbrev Store := ℕ → Option StatsAggregation

/-- The store after the builder at address `p` has been replaced by `b`. -/
def storeWrite (σ : Store) (p : ℕ) (b : StatsAggregation) : Store :=
  fun q => if q = p then some b else σ q

/-- The method `Field` on the receiver `a` (lines 26-29): the builder at `a` is
updated in place and the pointer `a` is returned.  A receiver that holds no builder
is a panic, `none`. -/
def FieldAt (σ : Store) (a : ℕ) (field : String) : Option (Store × ℕ) :=
  match σ a with
  | none => none
  | some b => some (storeWrite σ a (b.Field field), a)

/-- The method `Script` on the receiver `a` (lines 31-34). -/
def ScriptAt (σ : Store) (a : ℕ) (script : Option Script) : Option (Store × ℕ) :=
  match σ a with
  | none => none
  | some b => some (storeWrite σ a (b.Script script), a)

/-- The method `Format` on the receiver `a` (lines 36-39). -/
def FormatAt (σ : Store) (a : ℕ) (format : String) : Option (Store × ℕ) :=
  match σ a with
  | none => none
  | some b => some (storeWrite σ a (b.Format format), a)

/-- The method `SubAggregation` on the receiver `a` (lines 41-44); the write to a
nil map is a panic, `none`. -/
def SubAggregationAt (σ : Store) (a : ℕ) (name : String) (subAggregation : Aggregation) :
    Option (Store × ℕ) :=
  match σ a with
  | none => none
  | some b =>
    match b.SubAggregation name subAggregation with
    | none => none
    | some b' => some (storeWrite σ a b', a)

/-- The method `Meta` on the receiver `a` (lines 46-50). -/
def MetaAt (σ : Store) (a : ℕ) (metaData : Option (GoMap Value)) : Option (Store × ℕ) :=
  match σ a with
  | none => none
  | some b => some (storeWrite σ a (b.Meta metaData), a)

/-- The method `Source` on the receiver `a` (lines 52-99): its body reads the fields
of the builder and assigns to none of them, so the store it leaves is the store it
was given. -/
def SourceAt (σ : Store) (a : ℕ) (order : List (String × Aggregation)) :
    Option (Store × (Value × Option GoError)) :=
  match σ a with
  | none => none
  | some b => some (σ, b.Source order)

/-- A store with the sample builder at address `0` and the plain builder at
address `1`. -/
def sampleStore : Store := fun q =>
  if q = 0 then some sampleBuilder else if q = 1 then some plainBuilder else none

/-! ## The nested calls made by `Source` -/

/-- A call of a nested `Source()` made by `StatsAggregation.Source`: of the attached
script, or of the sub-aggregation bound to a name. -/
inductive Invocation where
  | script : Invocation
  | subAggregation (name : String) : Invocation
deriving DecidableEq, Repr

/-- Lines 69-75 of `Source`, with the nested call it makes. -/
def sourceScriptTraced (script : Option Script) (opts : List (String × Value)) :
    (List (String × Value) × Option GoError) × List Invocation :=
  match script with
  | none => ((opts, none), [])
  | some s =>
    match s.Source with
    | (_, some err) => ((opts, some err), [Invocation.script])
    | (src, none) => ((mapAssign "script" src opts, none), [Invocation.script])

/-- Lines 84-90 of `Source`, with the nested calls the loop makes: one for every
entry visited, up to and including the first that fails. -/
def rangeSubAggregationsTraced :
    List (String × Aggregation) → List (String × Value) →
      (List (String × Value) × Option GoError) × List Invocation
  | [], aggsMap => ((aggsMap, none), [])
  | (name, aggregate) :: rest, aggsMap =>
    match aggregate.Source with
    | (_, some err) => ((aggsMap, some err), [Invocation.subAggregation name])
    | (src, none) =>
      let run := rangeSubAggregationsTraced rest (mapAssign name src aggsMap)
      (run.1, Invocation.subAggregation name :: run.2)

/-- Lines 80-91 of `Source`, with the nested calls made. -/
def sourceSubAggregationsTraced (subAggregations : Option (GoMap Aggregation))
    (order : List (String × Aggregation)) (source : List (String × Value)) :
    (List (String × Value) × Option GoError) × List Invocation :=
  if mapLen subAggregations > 0 then
    match rangeSubAggregationsTraced order [] with
    | ((_, some err), calls) => ((source, some err), calls)
    | ((aggsMap, none), calls) =>
      ((mapAssign "aggregations" (Value.map aggsMap) source, none), calls)
  else ((source, none), [])

/-- The method `Source` (lines 52-99) together with the list of the nested
`Source()` calls it makes, in the order in which it makes them. -/
def StatsAggregation.SourceTraced (a : StatsAggregation)
    (order : List (String × Aggregation)) : (Value × Option GoError) × List Invocation :=
  let opts : List (String × Value) := []
  let opts := if a.field ≠ "" then mapAssign "field" (Value.str a.field) opts else opts
  match sourceScriptTraced a.script opts with
  | ((_, some err), calls) => ((Value.nil, some err), calls)
  | ((opts, none), calls) =>
    let opts := if a.format ≠ "" then mapAssign "format" (Value.str a.format) opts else opts
    let source := mapAssign "stats" (Value.map opts) []
    match sourceSubAggregationsTraced a.subAggregations order source with
    | ((_, some err), calls') => ((Value.nil, some err), calls ++ calls')
    | ((source, none), calls') => ((Value.map (sourceMeta a.meta source), none), calls ++ calls')

/-! ## Facts about map reads and writes -/

theorem mapLookup_mapAssign_self {α : Type} (k : String) (v : α) (l : List (String × α)) :
    mapLookup k (mapAssign k v l) = some v := by
  induction l with
  | nil => simp [mapAssign, mapLookup]
  | cons hd tl ih =>
    obtain ⟨k', v'⟩ := hd
    simp only [mapAssign]
    split_ifs with h₁ h₂
    · simp [mapLookup]
    · simp [mapLookup]
    · simp [mapLookup, h₂, ih]

theorem mapLookup_mapAssign_ne {α : Type} {k n : String} (h : n ≠ k) (v : α)
    (l : List (String × α)) : mapLookup n (mapAssign k v l) = mapLookup n l := by
  induction l with
  | nil => simp [mapAssign, mapLookup, h]
  | cons hd tl ih =>
    obtain ⟨k', v'⟩ := hd
    simp only [mapAssign]
    split_ifs with h₁ h₂
    · simp [mapLookup, h]
    · subst h₂; simp [mapLookup, h]
    · simp [mapLookup, ih]

theorem mapLookup_eq_none {α : Type} {k : String} {l : List (String × α)}
    (h : k ∉ mapKeys l) : mapLookup k l = none := by
  induction l with
  | nil => rfl
  | cons hd tl ih =>
    obtain ⟨k', v'⟩ := hd
    simp only [mapKeys, List.map_cons, List.mem_cons, not_or] at h
    simp only [mapLookup, h.1, if_false]
    exact ih h.2

theorem mapLookup_isSome_iff {α : Type} (k : String) (l : List (String × α)) :
    (mapLookup k l).isSome ↔ k ∈ mapKeys l := by
  induction l with
  | nil => simp [mapLookup, mapKeys]
  | cons hd tl ih =>
    obtain ⟨k', v'⟩ := hd
    by_cases h : k = k'
    · simp [mapLookup, mapKeys, h]
    · simpa [mapLookup, mapKeys, h] using ih

theorem nodup_mapKeys_of_sorted {α : Type} {l : List (String × α)} (h : SortedKeys l) :
    (mapKeys l).Nodup := by
  unfold mapKeys
  rw [List.Nodup, List.pairwise_map]
  refine List.Pairwise.imp ?_ h
  intro p q hpq heq
  rw [heq] at hpq
  exact keyLt_irrefl q.1 hpq

theorem mapLookup_eq_some_iff {α : Type} {l : List (String × α)} (hl : (mapKeys l).Nodup)
    (k : String) (v : α) : mapLookup k l = some v ↔ (k, v) ∈ l := by
  induction l with
  | nil => simp [mapLookup]
  | cons hd tl ih =>
    obtain ⟨k', v'⟩ := hd
    simp only [mapKeys, List.map_cons, List.nodup_cons] at hl
    by_cases h : k = k'
    · subst h
      simp only [mapLookup, if_true, Option.some.injEq, List.mem_cons, Prod.mk.injEq, true_and]
      constructor
      · intro hv; exact Or.inl hv.symm
      · rintro (hv | hv)
        · exact hv.symm
        · exact absurd (List.mem_map_of_mem Prod.fst hv) hl.1
    · simp only [mapLookup, h, if_false, List.mem_cons, Prod.mk.injEq, false_and, false_or]
      exact ih hl.2

theorem mapLookup_perm {α : Type} {l₁ l₂ : List (String × α)} (hp : l₁.Perm l₂)
    (hl : (mapKeys l₂).Nodup) (k : String) : mapLookup k l₁ = mapLookup k l₂ := by
  have hl₁ : (mapKeys l₁).Nodup := ((hp.map Prod.fst).nodup_iff).mpr hl
  apply Option.ext
  intro v
  simp only [Option.mem_def]
  rw [mapLookup_eq_some_iff hl₁, mapLookup_eq_some_iff hl]
  exact hp.mem_iff

theorem sortedKeys_ext {α : Type} {l₁ l₂ : List (String × α)} (h₁ : SortedKeys l₁)
    (h₂ : SortedKeys l₂) (h : ∀ k, mapLookup k l₁ = mapLookup k l₂) : l₁ = l₂ := by
  induction l₁ generalizing l₂ with
  | nil =>
    cases l₂ with
    | nil => rfl
    | cons hd tl =>
      have := h hd.1
      simp [mapLookup] at this
  | cons hd₁ tl₁ ih =>
    cases l₂ with
    | nil =>
      have := h hd₁.1
      simp [mapLookup] at this
    | cons hd₂ tl₂ =>
      obtain ⟨k₁, v₁⟩ := hd₁
      obtain ⟨k₂, v₂⟩ := hd₂
      have s₁ := List.pairwise_cons.mp h₁
      have s₂ := List.pairwise_cons.mp h₂
      have notin₁ : ∀ k, (keyLt k k₁ ∨ k = k₁) → k ∉ mapKeys tl₁ := by
        intro k hk hmem
        obtain ⟨q, hq, rfl⟩ := List.mem_map.mp hmem
        have := s₁.1 q hq
        rcases hk with hk | hk
        · exact keyLt_irrefl _ (keyLt_trans hk this)
        · exact keyLt_irrefl _ (hk ▸ this)
      have notin₂ : ∀ k, (keyLt k k₂ ∨ k = k₂) → k ∉ mapKeys tl₂ := by
        intro k hk hmem
        obtain ⟨q, hq, rfl⟩ := List.mem_map.mp hmem
        have := s₂.1 q hq
        rcases hk with hk | hk
        · exact keyLt_irrefl _ (keyLt_trans hk this)
        · exact keyLt_irrefl _ (hk ▸ this)
      rcases keyLt_trichotomy k₁ k₂ with hlt | heq | hgt
      · have e := h k₁
        have hne : k₁ ≠ k₂ := fun e => keyLt_irrefl k₂ (e ▸ hlt)
        simp only [mapLookup, if_true, hne, if_false] at e
        rw [mapLookup_eq_none (notin₂ k₁ (Or.inl hlt))] at e
        exact absurd e (by simp)
      · subst heq
        have e := h k₁
        simp only [mapLookup, if_true, Option.some.injEq] at e
        subst e
        congr 1
        apply ih s₁.2 s₂.2
        intro k
        by_cases hk : k = k₁
        · subst hk
          rw [mapLookup_eq_none (notin₁ k (Or.inr rfl)),
            mapLookup_eq_none (notin₂ k (Or.inr rfl))]
        · have e := h k
          simpa only [mapLookup, hk, if_false] using e
      · have e := h k₂
        have hne : k₂ ≠ k₁ := fun e => keyLt_irrefl k₁ (e ▸ hgt)
        simp only [mapLookup, if_true, hne, if_false] at e
        rw [mapLookup_eq_none (notin₁ k₂ (Or.inl hgt))] at e
        exact absurd e (by simp)

theorem mapKeys_mapValues {α β : Type} (f : α → β) (l : List (String × α)) :
    mapKeys (mapValues f l) = mapKeys l := by
  simp [mapKeys, mapValues, Function.comp_def]

theorem sortedKeys_mapValues {α β : Type} (f : α → β) {l : List (String × α)}
    (h : SortedKeys l) : SortedKeys (mapValues f l) := by
  unfold SortedKeys mapValues
  rw [List.pairwise_map]
  exact h

theorem mapLookup_mapValues {α β : Type} (f : α → β) (k : String) (l : List (String × α)) :
    mapLookup k (mapValues f l) = (mapLookup k l).map f := by
  induction l with
  | nil => rfl
  | cons hd tl ih =>
    obtain ⟨k', v'⟩ := hd
    by_cases h : k = k'
    · simp [mapValues, mapLookup, h]
    · simpa [mapValues, mapLookup, h] using ih

/-! ## Facts about the blocks of `Source` -/

theorem sourceScript_of_succeeds (script : Option Script) (opts : List (String × Value))
    (h : ∀ s, script = some s → s.Source.2 = none) :
    sourceScript script opts = (assignScript script opts, none) := by
  cases script with
  | none => rfl
  | some s =>
    have hs := h s rfl
    rcases hsrc : s.Source with ⟨src, err⟩
    rw [hsrc] at hs
    simp only at hs
    subst hs
    simp [sourceScript, assignScript, hsrc]

theorem rangeSubAggregations_of_succeed (order : List (String × Aggregation))
    (aggsMap : List (String × Value)) (h : ∀ p ∈ order, p.2.Source.2 = none) :
    rangeSubAggregations order aggsMap =
      (order.foldl (fun m p => mapAssign p.1 p.2.Source.1 m) aggsMap, none) := by
  induction order generalizing aggsMap with
  | nil => rfl
  | cons hd tl ih =>
    obtain ⟨name, aggregate⟩ := hd
    have hhd := h (name, aggregate) (List.mem_cons_self _ _)
    rcases hsrc : aggregate.Source with ⟨src, err⟩
    rw [hsrc] at hhd
    simp only at hhd
    subst hhd
    simp only [rangeSubAggregations, hsrc, List.foldl_cons]
    exact ih _ (fun p hp => h p (List.mem_cons_of_mem _ hp))

theorem sortedKeys_foldl_assign (order : List (String × Aggregation))
    {aggsMap : List (String × Value)} (h : SortedKeys aggsMap) :
    SortedKeys (order.foldl (fun m p => mapAssign p.1 p.2.Source.1 m) aggsMap) := by
  induction order generalizing aggsMap with
  | nil => exact h
  | cons hd tl ih => exact ih (sortedKeys_mapAssign _ _ h)

theorem mapLookup_foldl_assign (order : List (String × Aggregation))
    (hnd : (mapKeys order).Nodup) (aggsMap : List (String × Value)) (n : String) :
    mapLookup n (order.foldl (fun m p => mapAssign p.1 p.2.Source.1 m) aggsMap) =
      match mapLookup n order with
      | some g => some g.Source.1
      | none => mapLookup n aggsMap := by
  induction order generalizing aggsMap with
  | nil => rfl
  | cons hd tl ih =>
    obtain ⟨k, g⟩ := hd
    simp only [mapKeys, List.map_cons, List.nodup_cons] at hnd
    rw [List.foldl_cons, ih hnd.2]
    by_cases hk : n = k
    · subst hk
      rw [mapLookup_eq_none hnd.1]
      simp [mapLookup, mapLookup_mapAssign_self]
    · simp only [mapLookup, hk, if_false]
      cases mapLookup n tl with
      | none => simp [mapLookup_mapAssign_ne hk]
      | some g' => rfl

/-- The map built by the loop does not depend on the visiting order: it is the map
of the sub-aggregations with every aggregation replaced by its serialised form. -/
theorem aggsMapOf_eq (m : GoMap Aggregation) {order : List (String × Aggregation)}
    (hord : order.Perm m.entries) :
    aggsMapOf order = mapValues (fun g => g.Source.1) m.entries := by
  have hnd : (mapKeys m.entries).Nodup := nodup_mapKeys_of_sorted m.sorted
  have hnd' : (mapKeys order).Nodup := ((hord.map Prod.fst).nodup_iff).mpr hnd
  apply sortedKeys_ext (sortedKeys_foldl_assign order List.Pairwise.nil)
    (sortedKeys_mapValues _ m.sorted)
  intro k
  rw [mapLookup_foldl_assign order hnd' [] k, mapLookup_mapValues, mapLookup_perm hord hnd k]
  cases mapLookup k m.entries <;> rfl

theorem succeed_of_visitOrder {a : StatsAggregation} {order : List (String × Aggregation)}
    (hord : VisitOrder a order) (hsub : SubAggregationsSucceed a) :
    ∀ p ∈ order, p.2.Source.2 = none :=
  fun p hp => hsub p (hord.mem_iff.mp hp)

/-- When no nested serialiser fails, `Source` returns the assembled map and no error. -/
theorem Source_of_succeed (a : StatsAggregation) (order : List (String × Aggregation))
    (hs : ScriptSucceeds a) (hsub : ∀ p ∈ order, p.2.Source.2 = none) :
    a.Source order = (Value.map (sourceOf a order), none) := by
  unfold StatsAggregation.Source sourceOf statsOptions aggsMapOf sourceSubAggregations
  simp only [sourceScript_of_succeeds a.script _ hs,
    rangeSubAggregations_of_succeed order [] hsub]
  split_ifs <;> rfl

theorem mapLookup_sourceMeta_ne {n : String} (h : n ≠ "meta") (metaData : Option (GoMap Value))
    (source : List (String × Value)) :
    mapLookup n (sourceMeta metaData source) = mapLookup n source := by
  unfold sourceMeta
  cases metaData with
  | none => rfl
  | some m =>
    simp only
    split_ifs
    · exact mapLookup_mapAssign_ne h _ _
    · rfl

theorem mapLookup_stats_sourceOf (a : StatsAggregation) (order : List (String × Aggregation)) :
    mapLookup "stats" (sourceOf a order) = some (Value.map (statsOptions a)) := by
  unfold sourceOf
  simp only
  rw [mapLookup_sourceMeta_ne (by decide)]
  split_ifs
  · rw [mapLookup_mapAssign_ne (by decide)]
    exact mapLookup_mapAssign_self _ _ _
  · exact mapLookup_mapAssign_self _ _ _

theorem mapLookup_aggregations_sourceOf (a : StatsAggregation)
    (order : List (String × Aggregation)) :
    mapLookup "aggregations" (sourceOf a order) =
      if mapLen a.subAggregations > 0 then some (Value.map (aggsMapOf order)) else none := by
  unfold sourceOf
  simp only
  rw [mapLookup_sourceMeta_ne (by decide)]
  split_ifs
  · exact mapLookup_mapAssign_self _ _ _
  · rw [mapLookup_mapAssign_ne (by decide)]
    rfl

theorem mapLookup_meta_sourceMeta (metaData : Option (GoMap Value))
    {source : List (String × Value)} (h : mapLookup "meta" source = none) :
    mapLookup "meta" (sourceMeta metaData source) =
      match metaData with
      | none => none
      | some m => if m.entries.length > 0 then some (Value.map m.entries) else none := by
  cases metaData with
  | none => exact h
  | some m =>
    unfold sourceMeta
    simp only
    split_ifs
    · exact mapLookup_mapAssign_self _ _ _
    · exact h

theorem mapLookup_meta_sourceOf (a : StatsAggregation) (order : List (String × Aggregation)) :
    mapLookup "meta" (sourceOf a order) =
      match a.meta with
      | none => none
      | some m => if m.entries.length > 0 then some (Value.map m.entries) else none := by
  unfold sourceOf
  simp only
  apply mapLookup_meta_sourceMeta
  split_ifs
  · rw [mapLookup_mapAssign_ne (by decide), mapLookup_mapAssign_ne (by decide)]
    rfl
  · rw [mapLookup_mapAssign_ne (by decide)]
    rfl

theorem mapLookup_field_statsOptions (a : StatsAggregation) :
    mapLookup "field" (statsOptions a) =
      if a.field ≠ "" then some (Value.str a.field) else none := by
  have h₁ : ∀ (v : Value) l, mapLookup "field" (mapAssign "script" v l) = mapLookup "field" l :=
    fun v l => mapLookup_mapAssign_ne (by decide) v l
  have h₂ : ∀ (v : Value) l, mapLookup "field" (mapAssign "format" v l) = mapLookup "field" l :=
    fun v l => mapLookup_mapAssign_ne (by decide) v l
  unfold statsOptions assignScript
  cases a.script <;> simp only <;> split_ifs <;>
    simp [h₁, h₂, mapLookup_mapAssign_self, mapLookup]

theorem mapLookup_script_statsOptions (a : StatsAggregation) :
    mapLookup "script" (statsOptions a) = a.script.map (fun s => s.Source.1) := by
  have h₁ : ∀ (v : Value) l, mapLookup "script" (mapAssign "field" v l) = mapLookup "script" l :=
    fun v l => mapLookup_mapAssign_ne (by decide) v l
  have h₂ : ∀ (v : Value) l, mapLookup "script" (mapAssign "format" v l) = mapLookup "script" l :=
    fun v l => mapLookup_mapAssign_ne (by decide) v l
  unfold statsOptions assignScript
  cases a.script <;> simp only <;> split_ifs <;>
    simp [h₁, h₂, mapLookup_mapAssign_self, mapLookup]

theorem mapLookup_format_statsOptions (a : StatsAggregation) :
    mapLookup "format" (statsOptions a) =
      if a.format ≠ "" then some (Value.str a.format) else none := by
  have h₁ : ∀ (v : Value) l, mapLookup "format" (mapAssign "field" v l) = mapLookup "format" l :=
    fun v l => mapLookup_mapAssign_ne (by decide) v l
  have h₂ : ∀ (v : Value) l, mapLookup "format" (mapAssign "script" v l) = mapLookup "format" l :=
    fun v l => mapLookup_mapAssign_ne (by decide) v l
  unfold statsOptions assignScript
  cases a.script <;> simp only <;> split_ifs <;>
    simp [h₁, h₂, mapLookup_mapAssign_self, mapLookup]

theorem mem_mapKeys_iff {α : Type} (k : String) (l : List (String × α)) :
    k ∈ mapKeys l ↔ ∃ v, mapLookup k l = some v := by
  rw [← mapLookup_isSome_iff, Option.isSome_iff_exists]

/-! ## The sample builder meets the hypotheses -/

theorem sampleBuilder_entries :
    mapEntries sampleBuilder.subAggregations = [("high", sampleMax), ("low", sampleMin)] := rfl

theorem sampleBuilder_visitOrder : VisitOrder sampleBuilder sampleOrder := by
  unfold VisitOrder
  rw [sampleBuilder_entries]
  exact List.Perm.swap _ _ _

theorem sampleBuilder_scriptSucceeds : ScriptSucceeds sampleBuilder := by
  intro s hs
  cases hs
  rfl

theorem sampleBuilder_subAggregationsSucceed : SubAggregationsSucceed sampleBuilder := by
  intro p hp
  rw [sampleBuilder_entries] at hp
  simp only [List.mem_cons, List.mem_singleton, List.not_mem_nil, or_false] at hp
  rcases hp with rfl | rfl <;> rfl

/-! ## The contents of a successful result -/

/-- C1: when the script (if any) and every sub-aggregation serialise, `Source()`
returns a map whose `"stats"` object has the key `"field"` exactly when the
builder's field is a non-empty string, and then binds it to that field. -/
theorem Source_stats_field (a : StatsAggregation) (order : List (String × Aggregation))
    (hord : VisitOrder a order) (hs : ScriptSucceeds a) (hsub : SubAggregationsSucceed a) :
    ∃ source opts, a.Source order = (Value.map source, none) ∧
      mapLookup "stats" source = some (Value.map opts) ∧
      ("field" ∈ mapKeys opts ↔ a.field ≠ "") ∧
      (a.field ≠ "" → mapLookup "field" opts = some (Value.str a.field)) := by
  refine ⟨sourceOf a order, statsOptions a,
    Source_of_succeed a order hs (succeed_of_visitOrder hord hsub),
    mapLookup_stats_sourceOf a order, ?_, ?_⟩
  · rw [mem_mapKeys_iff, mapLookup_field_statsOptions]
    by_cases h : a.field = "" <;> simp [h]
  · intro h
    rw [mapLookup_field_statsOptions, if_pos h]

theorem Source_stats_field_witness :
    VisitOrder sampleBuilder sampleOrder ∧ ScriptSucceeds sampleBuilder ∧
      SubAggregationsSucceed sampleBuilder ∧
      ∃ source opts, sampleBuilder.Source sampleOrder = (Value.map source, none) ∧
        mapLookup "stats" source = some (Value.map opts) ∧
        ("field" ∈ mapKeys opts ↔ sampleBuilder.field ≠ "") ∧
        (sampleBuilder.field ≠ "" →
          mapLookup "field" opts = some (Value.str sampleBuilder.field)) :=
  ⟨sampleBuilder_visitOrder, sampleBuilder_scriptSucceeds,
    sampleBuilder_subAggregationsSucceed,
    Source_stats_field sampleBuilder sampleOrder sampleBuilder_visitOrder
      sampleBuilder_scriptSucceeds sampleBuilder_subAggregationsSucceed⟩

/-- C2: when the script (if any) and every sub-aggregation serialise, `Source()`
returns a map whose `"stats"` object has the key `"format"` exactly when the
builder's format is a non-empty string, and then binds it to that format. -/
theorem Source_stats_format (a : StatsAggregation) (order : List (String × Aggregation))
    (hord : VisitOrder a order) (hs : ScriptSucceeds a) (hsub : SubAggregationsSucceed a) :
    ∃ source opts, a.Source order = (Value.map source, none) ∧
      mapLookup "stats" source = some (Value.map opts) ∧
      ("format" ∈ mapKeys opts ↔ a.format ≠ "") ∧
      (a.format ≠ "" → mapLookup "format" opts = some (Value.str a.format)) := by
  refine ⟨sourceOf a order, statsOptions a,
    Source_of_succeed a order hs (succeed_of_visitOrder hord hsub),
    mapLookup_stats_sourceOf a order, ?_, ?_⟩
  · rw [mem_mapKeys_iff, mapLookup_format_statsOptions]
    by_cases h : a.format = "" <;> simp [h]
  · intro h
    rw [mapLookup_format_statsOptions, if_pos h]

theorem Source_stats_format_witness :
    VisitOrder sampleBuilder sampleOrder ∧ ScriptSucceeds sampleBuilder ∧
      SubAggregationsSucceed sampleBuilder ∧
      ∃ source opts, sampleBuilder.Source sampleOrder = (Value.map source, none) ∧
        mapLookup "stats" source = some (Value.map opts) ∧
        ("format" ∈ mapKeys opts ↔ sampleBuilder.format ≠ "") ∧
        (sampleBuilder.format ≠ "" →
          mapLookup "format" opts = some (Value.str sampleBuilder.format)) :=
  ⟨sampleBuilder_visitOrder, sampleBuilder_scriptSucceeds,
    sampleBuilder_subAggregationsSucceed,
    Source_stats_format sampleBuilder sampleOrder sampleBuilder_visitOrder
      sampleBuilder_scriptSucceeds sampleBuilder_subAggregationsSucceed⟩

/-- C3: with no script, no sub-aggregation and nil or empty metadata, `Source()`
succeeds and returns the map whose only key is `"stats"`, bound to the map that
holds exactly the non-empty ones of field and format; `NewStatsAggregation().Source()`
is `{"stats": {}}` and `NewStatsAggregation().Field("grade").Source()` is
`{"stats": {"field": "grade"}}`. -/
theorem Source_plain (a : StatsAggregation) (order : List (String × Aggregation))
    (hscript : a.script = none) (hsub : mapLen a.subAggregations = 0)
    (hmeta : mapLen a.meta = 0) :
    a.Source order =
        (Value.map [("stats", Value.map
          ((if a.field ≠ "" then [("field", Value.str a.field)] else []) ++
            (if a.format ≠ "" then [("format", Value.str a.format)] else [])))], none) ∧
      NewStatsAggregation.Source [] = (Value.map [("stats", Value.map [])], none) ∧
      (NewStatsAggregation.Field "grade").Source [] =
        (Value.map [("stats", Value.map [("field", Value.str "grade")])], none) := by
  refine ⟨?_, rfl, rfl⟩
  have hlt : ¬ keyLt "format" "field" := by decide
  have hne : ¬ "format" = "field" := by decide
  have hmeta' : sourceMeta a.meta = fun source => source := by
    funext source
    unfold sourceMeta
    cases hm : a.meta with
    | none => rfl
    | some m =>
      rw [hm] at hmeta
      simp only [mapLen] at hmeta
      simp [hmeta]
  unfold StatsAggregation.Source sourceSubAggregations
  rw [hscript, hmeta']
  simp only [sourceScript, hsub, lt_irrefl, if_false]
  split_ifs <;> simp [mapAssign, hlt, hne]

theorem Source_plain_witness :
    plainBuilder.script = none ∧ mapLen plainBuilder.subAggregations = 0 ∧
      mapLen plainBuilder.meta = 0 ∧
      (plainBuilder.Source [] =
        (Value.map [("stats", Value.map
          ((if plainBuilder.field ≠ "" then [("field", Value.str plainBuilder.field)] else []) ++
            (if plainBuilder.format ≠ "" then [("format", Value.str plainBuilder.format)]
              else [])))], none) ∧
      NewStatsAggregation.Source [] = (Value.map [("stats", Value.map [])], none) ∧
      (NewStatsAggregation.Field "grade").Source [] =
        (Value.map [("stats", Value.map [("field", Value.str "grade")])], none)) :=
  ⟨rfl, rfl, rfl, Source_plain plainBuilder [] rfl rfl rfl⟩

/-- C4: when the script (if any) and every sub-aggregation serialise, the result of
`Source()` has the top-level key `"aggregations"` exactly when the builder holds at
least one sub-aggregation; the value is then a map whose keys are the names of the
sub-aggregations and which binds each name to the output of that sub-aggregation's
own `Source()`. -/
theorem Source_aggregations (a : StatsAggregation) (order : List (String × Aggregation))
    (hord : VisitOrder a order) (hs : ScriptSucceeds a) (hsub : SubAggregationsSucceed a) :
    ∃ source, a.Source order = (Value.map source, none) ∧
      ("aggregations" ∈ mapKeys source ↔ 0 < mapLen a.subAggregations) ∧
      (0 < mapLen a.subAggregations →
        ∃ aggsMap, mapLookup "aggregations" source = some (Value.map aggsMap) ∧
          mapKeys aggsMap = mapKeys (mapEntries a.subAggregations) ∧
          ∀ name aggregate, (name, aggregate) ∈ mapEntries a.subAggregations →
            mapLookup name aggsMap = some aggregate.Source.1) := by
  refine ⟨sourceOf a order, Source_of_succeed a order hs (succeed_of_visitOrder hord hsub),
    ?_, ?_⟩
  · rw [mem_mapKeys_iff, mapLookup_aggregations_sourceOf]
    by_cases h : mapLen a.subAggregations > 0 <;> simp [h]
  · intro hlen
    refine ⟨aggsMapOf order, ?_, ?_⟩
    · rw [mapLookup_aggregations_sourceOf, if_pos hlen]
    · cases hm : a.subAggregations with
      | none =>
        rw [hm] at hlen
        exact absurd hlen (lt_irrefl 0)
      | some m =>
        unfold VisitOrder at hord
        rw [hm] at hord
        simp only [mapEntries] at hord ⊢
        rw [aggsMapOf_eq m hord]
        refine ⟨mapKeys_mapValues _ _, ?_⟩
        intro name aggregate hmem
        rw [mapLookup_mapValues,
          (mapLookup_eq_some_iff (nodup_mapKeys_of_sorted m.sorted) name aggregate).mpr hmem]
        rfl

theorem Source_aggregations_witness :
    VisitOrder sampleBuilder sampleOrder ∧ ScriptSucceeds sampleBuilder ∧
      SubAggregationsSucceed sampleBuilder ∧
      ∃ source, sampleBuilder.Source sampleOrder = (Value.map source, none) ∧
        ("aggregations" ∈ mapKeys source ↔ 0 < mapLen sampleBuilder.subAggregations) ∧
        (0 < mapLen sampleBuilder.subAggregations →
          ∃ aggsMap, mapLookup "aggregations" source = some (Value.map aggsMap) ∧
            mapKeys aggsMap = mapKeys (mapEntries sampleBuilder.subAggregations) ∧
            ∀ name aggregate, (name, aggregate) ∈ mapEntries sampleBuilder.subAggregations →
              mapLookup name aggsMap = some aggregate.Source.1) :=
  ⟨sampleBuilder_visitOrder, sampleBuilder_scriptSucceeds,
    sampleBuilder_subAggregationsSucceed,
    Source_aggregations sampleBuilder sampleOrder sampleBuilder_visitOrder
      sampleBuilder_scriptSucceeds sampleBuilder_subAggregationsSucceed⟩

/-- C5: when the script (if any) and every sub-aggregation serialise, the result of
`Source()` has the top-level key `"meta"` exactly when the metadata map has at least
one entry (a nil map and an allocated empty map are both left out); the value is
then the metadata map itself. -/
theorem Source_meta (a : StatsAggregation) (order : List (String × Aggregation))
    (hord : VisitOrder a order) (hs : ScriptSucceeds a) (hsub : SubAggregationsSucceed a) :
    ∃ source, a.Source order = (Value.map source, none) ∧
      ("meta" ∈ mapKeys source ↔ 0 < mapLen a.meta) ∧
      (a.meta = none ∨ a.meta = some GoMap.make → "meta" ∉ mapKeys source) ∧
      (∀ m, a.meta = some m → 0 < m.entries.length →
        mapLookup "meta" source = some (Value.map m.entries)) := by
  have hiff : "meta" ∈ mapKeys (sourceOf a order) ↔ 0 < mapLen a.meta := by
    rw [mem_mapKeys_iff, mapLookup_meta_sourceOf]
    cases hm : a.meta with
    | none => simp [mapLen]
    | some m =>
      by_cases h : m.entries.length > 0
      · simp [mapLen, h]
      · have h0 : m.entries.length = 0 := by omega
        simp [mapLen, h0]
  refine ⟨sourceOf a order, Source_of_succeed a order hs (succeed_of_visitOrder hord hsub),
    hiff, ?_, ?_⟩
  · intro h
    rw [hiff]
    rcases h with h | h <;> rw [h] <;> exact lt_irrefl 0
  · intro m hm hlen
    rw [mapLookup_meta_sourceOf, hm]
    simp only
    rw [if_pos hlen]

theorem Source_meta_witness :
    VisitOrder sampleBuilder sampleOrder ∧ ScriptSucceeds sampleBuilder ∧
      SubAggregationsSucceed sampleBuilder ∧
      ∃ source, sampleBuilder.Source sampleOrder = (Value.map source, none) ∧
        ("meta" ∈ mapKeys source ↔ 0 < mapLen sampleBuilder.meta) ∧
        (sampleBuilder.meta = none ∨ sampleBuilder.meta = some GoMap.make →
          "meta" ∉ mapKeys source) ∧
        (∀ m, sampleBuilder.meta = some m → 0 < m.entries.length →
          mapLookup "meta" source = some (Value.map m.entries)) :=
  ⟨sampleBuilder_visitOrder, sampleBuilder_scriptSucceeds,
    sampleBuilder_subAggregationsSucceed,
    Source_meta sampleBuilder sampleOrder sampleBuilder_visitOrder
      sampleBuilder_scriptSucceeds sampleBuilder_subAggregationsSucceed⟩

/-! ## Failures of the nested serialisers -/

theorem brokenSubBuilder_entries :
    mapEntries brokenSubBuilder.subAggregations =
      [("broken", failingAggregation), ("high", sampleMax), ("low", sampleMin)] := rfl

theorem brokenSubBuilder_mem :
    ("broken", failingAggregation) ∈ mapEntries brokenSubBuilder.subAggregations := by
  rw [brokenSubBuilder_entries]
  exact List.mem_cons_self _ _

theorem brokenSubBuilder_visitOrder : VisitOrder brokenSubBuilder brokenSubOrder := by
  unfold VisitOrder
  rw [brokenSubBuilder_entries]
  exact (List.reverse_perm
    [("broken", failingAggregation), ("high", sampleMax), ("low", sampleMin)])

theorem brokenSubBuilder_scriptSucceeds : ScriptSucceeds brokenSubBuilder := by
  intro s hs
  cases hs
  rfl

theorem sourceScript_of_error (s : Script) (e : GoError) (opts : List (String × Value))
    (herr : s.Source.2 = some e) : (sourceScript (some s) opts).2 = some e := by
  rcases hsrc : s.Source with ⟨src, err⟩
  rw [hsrc] at herr
  simp only at herr
  subst herr
  simp [sourceScript, hsrc]

/-- A failing script makes `Source` return its error and the nil result. -/
theorem Source_of_script_error (a : StatsAggregation) (order : List (String × Aggregation))
    (s : Script) (e : GoError) (hscript : a.script = some s) (herr : s.Source.2 = some e) :
    a.Source order = (Value.nil, some e) := by
  unfold StatsAggregation.Source
  simp only [hscript]
  generalize hopts :
    (if a.field ≠ "" then mapAssign "field" (Value.str a.field) [] else []) = opts
  have h := sourceScript_of_error s e opts herr
  rcases hr : sourceScript (some s) opts with ⟨opts', err⟩
  rw [hr] at h
  simp only at h
  subst h
  rfl

/-- The loop stops at a failing sub-aggregation: when one of the visited
sub-aggregations fails, the loop ends with the error of a visited one. -/
theorem rangeSubAggregations_of_error (order : List (String × Aggregation))
    (aggsMap : List (String × Value)) (h : ∃ p ∈ order, p.2.Source.2 ≠ none) :
    ∃ p ∈ order, ∃ e, p.2.Source.2 = some e ∧
      (rangeSubAggregations order aggsMap).2 = some e := by
  induction order generalizing aggsMap with
  | nil =>
    obtain ⟨p, hp, _⟩ := h
    exact absurd hp (List.not_mem_nil p)
  | cons hd tl ih =>
    obtain ⟨name, aggregate⟩ := hd
    rcases hsrc : aggregate.Source with ⟨src, err⟩
    cases err with
    | some e =>
      refine ⟨(name, aggregate), List.mem_cons_self _ _, e, ?_, ?_⟩
      · simp [hsrc]
      · simp [rangeSubAggregations, hsrc]
    | none =>
      have htl : ∃ p ∈ tl, p.2.Source.2 ≠ none := by
        obtain ⟨p, hp, hne⟩ := h
        rcases List.mem_cons.mp hp with hp | hp
        · subst hp
          simp [hsrc] at hne
        · exact ⟨p, hp, hne⟩
      obtain ⟨p, hp, e, hpe, hrun⟩ := ih (mapAssign name src aggsMap) htl
      refine ⟨p, List.mem_cons_of_mem _ hp, e, hpe, ?_⟩
      simpa [rangeSubAggregations, hsrc] using hrun

/-- When the script does not fail and a sub-aggregation does, `Source` returns the
error of a failing sub-aggregation and the nil result. -/
theorem Source_of_subAggregation_error (a : StatsAggregation)
    (order : List (String × Aggregation)) (hord : VisitOrder a order) (hs : ScriptSucceeds a)
    (hfail : ∃ p ∈ mapEntries a.subAggregations, p.2.Source.2 ≠ none) :
    ∃ p ∈ mapEntries a.subAggregations, ∃ e, p.2.Source.2 = some e ∧
      a.Source order = (Value.nil, some e) := by
  have hlen : mapLen a.subAggregations > 0 := by
    obtain ⟨p, hp, _⟩ := hfail
    cases hm : a.subAggregations with
    | none =>
      rw [hm] at hp
      exact absurd hp (List.not_mem_nil p)
    | some m =>
      rw [hm] at hp
      exact List.length_pos_of_mem hp
  have hfail' : ∃ p ∈ order, p.2.Source.2 ≠ none := by
    obtain ⟨p, hp, hne⟩ := hfail
    exact ⟨p, hord.mem_iff.mpr hp, hne⟩
  obtain ⟨p, hp, e, hpe, hrun⟩ := rangeSubAggregations_of_error order [] hfail'
  refine ⟨p, hord.mem_iff.mp hp, e, hpe, ?_⟩
  unfold StatsAggregation.Source sourceSubAggregations
  simp only [sourceScript_of_succeeds a.script _ hs, if_pos hlen]
  rcases hr : rangeSubAggregations order [] with ⟨aggsMap, err⟩
  rw [hr] at hrun
  simp only at hrun
  subst hrun
  rfl

/-- C6: when the attached script's `Source()` reports the error `e`, `Source()`
returns the nil result and exactly `e`, whatever the field, the format, the metadata,
the sub-aggregations and the order of their visit are. -/
theorem Source_script_error (a : StatsAggregation) (order : List (String × Aggregation))
    (s : Script) (e : GoError) (hscript : a.script = some s) (herr : s.Source.2 = some e) :
    a.Source order = (Value.nil, some e) :=
  Source_of_script_error a order s e hscript herr

theorem Source_script_error_witness :
    brokenScriptBuilder.script = some failingScript ∧
      failingScript.Source.2 = some scriptError ∧
      (∃ p ∈ mapEntries brokenScriptBuilder.subAggregations,
        p.2.Source.2 = some subAggregationError) ∧
      brokenScriptBuilder.Source brokenSubOrder = (Value.nil, some scriptError) :=
  ⟨rfl, rfl, ⟨("broken", failingAggregation), brokenSubBuilder_mem, rfl⟩,
    Source_script_error brokenScriptBuilder brokenSubOrder failingScript scriptError rfl rfl⟩

/-- C7: when the script is absent or serialises and at least one sub-aggregation's
`Source()` reports an error, `Source()` returns the nil result and the unmodified
error of one of the failing sub-aggregations, however many others succeed and in
whatever order they are visited; when exactly one sub-aggregation fails, the error
returned is the error of that one. -/
theorem Source_subAggregation_error (a : StatsAggregation)
    (order : List (String × Aggregation)) (hord : VisitOrder a order) (hs : ScriptSucceeds a)
    (hfail : ∃ p ∈ mapEntries a.subAggregations, p.2.Source.2 ≠ none) :
    (∃ p ∈ mapEntries a.subAggregations, ∃ e, p.2.Source.2 = some e ∧
        a.Source order = (Value.nil, some e)) ∧
      (∀ p ∈ mapEntries a.subAggregations, ∀ e, p.2.Source.2 = some e →
        (∀ q ∈ mapEntries a.subAggregations, q.2.Source.2 ≠ none → q = p) →
        a.Source order = (Value.nil, some e)) := by
  have h := Source_of_subAggregation_error a order hord hs hfail
  refine ⟨h, ?_⟩
  intro p _ e hpe honly
  obtain ⟨q, hq, e', hqe, hsrc⟩ := h
  have hqp : q = p := honly q hq (by rw [hqe]; exact Option.some_ne_none e')
  subst hqp
  rw [hqe] at hpe
  rw [hsrc, Option.some.inj hpe]

theorem Source_subAggregation_error_witness :
    VisitOrder brokenSubBuilder brokenSubOrder ∧ ScriptSucceeds brokenSubBuilder ∧
      (∃ p ∈ mapEntries brokenSubBuilder.subAggregations, p.2.Source.2 ≠ none) ∧
      ((∃ p ∈ mapEntries brokenSubBuilder.subAggregations, ∃ e, p.2.Source.2 = some e ∧
          brokenSubBuilder.Source brokenSubOrder = (Value.nil, some e)) ∧
        (∀ p ∈ mapEntries brokenSubBuilder.subAggregations, ∀ e, p.2.Source.2 = some e →
          (∀ q ∈ mapEntries brokenSubBuilder.subAggregations, q.2.Source.2 ≠ none → q = p) →
          brokenSubBuilder.Source brokenSubOrder = (Value.nil, some e))) :=
  ⟨brokenSubBuilder_visitOrder, brokenSubBuilder_scriptSucceeds,
    ⟨("broken", failingAggregation), brokenSubBuilder_mem, by decide⟩,
    Source_subAggregation_error brokenSubBuilder brokenSubOrder brokenSubBuilder_visitOrder
      brokenSubBuilder_scriptSucceeds
      ⟨("broken", failingAggregation), brokenSubBuilder_mem, by decide⟩⟩

/-- C8: `Source()` returns an error exactly when the attached script's `Source()`
fails or the `Source()` of some sub-aggregation fails; in every other case, whatever
the field, the format and the metadata are, it returns a map (not the nil result)
and no error. -/
theorem Source_error_iff (a : StatsAggregation) (order : List (String × Aggregation))
    (hord : VisitOrder a order) :
    ((a.Source order).2 ≠ none ↔
        (∃ s, a.script = some s ∧ s.Source.2 ≠ none) ∨
          (∃ p ∈ mapEntries a.subAggregations, p.2.Source.2 ≠ none)) ∧
      (¬ ((∃ s, a.script = some s ∧ s.Source.2 ≠ none) ∨
          (∃ p ∈ mapEntries a.subAggregations, p.2.Source.2 ≠ none)) →
        ∃ source, a.Source order = (Value.map source, none)) := by
  have hok : ¬ ((∃ s, a.script = some s ∧ s.Source.2 ≠ none) ∨
      (∃ p ∈ mapEntries a.subAggregations, p.2.Source.2 ≠ none)) →
      a.Source order = (Value.map (sourceOf a order), none) := by
    intro hno
    have hs : ScriptSucceeds a := by
      intro s hscript
      by_contra hne
      exact hno (Or.inl ⟨s, hscript, hne⟩)
    have hsub : SubAggregationsSucceed a := by
      intro p hp
      by_contra hne
      exact hno (Or.inr ⟨p, hp, hne⟩)
    exact Source_of_succeed a order hs (succeed_of_visitOrder hord hsub)
  refine ⟨⟨?_, ?_⟩, fun hno => ⟨sourceOf a order, hok hno⟩⟩
  · intro herr
    by_contra hno
    rw [hok hno] at herr
    exact herr rfl
  · rintro (⟨s, hscript, hne⟩ | hfail)
    · obtain ⟨e, he⟩ := Option.ne_none_iff_exists'.mp hne
      rw [Source_of_script_error a order s e hscript he]
      exact Option.some_ne_none e
    · by_cases hs : ScriptSucceeds a
      · obtain ⟨p, _, e, _, hsrc⟩ := Source_of_subAggregation_error a order hord hs hfail
        rw [hsrc]
        exact Option.some_ne_none e
      · unfold ScriptSucceeds at hs
        push_neg at hs
        obtain ⟨s, hscript, hne⟩ := hs
        obtain ⟨e, he⟩ := Option.ne_none_iff_exists'.mp hne
        rw [Source_of_script_error a order s e hscript he]
        exact Option.some_ne_none e

theorem Source_error_iff_witness :
    VisitOrder brokenSubBuilder brokenSubOrder ∧
      (((brokenSubBuilder.Source brokenSubOrder).2 ≠ none ↔
          (∃ s, brokenSubBuilder.script = some s ∧ s.Source.2 ≠ none) ∨
            (∃ p ∈ mapEntries brokenSubBuilder.subAggregations, p.2.Source.2 ≠ none)) ∧
        (¬ ((∃ s, brokenSubBuilder.script = some s ∧ s.Source.2 ≠ none) ∨
            (∃ p ∈ mapEntries brokenSubBuilder.subAggregations, p.2.Source.2 ≠ none)) →
          ∃ source, brokenSubBuilder.Source brokenSubOrder = (Value.map source, none))) :=
  ⟨brokenSubBuilder_visitOrder,
    Source_error_iff brokenSubBuilder brokenSubOrder brokenSubBuilder_visitOrder⟩

/-! ## The setters -/

/-- Two of the four setter calls `Field field`, `Format format`, `Script script`,
`Meta metaData` can be exchanged. -/
theorem call_comm (field format : String) (script : Option Script)
    (metaData : Option (GoMap Value)) :
    ∀ x ∈ [Setter.Field field, Setter.Format format, Setter.Script script,
        Setter.Meta metaData],
      ∀ y ∈ [Setter.Field field, Setter.Format format, Setter.Script script,
        Setter.Meta metaData],
      ∀ z : StatsAggregation,
        Setter.call (Setter.call z x) y = Setter.call (Setter.call z y) x := by
  intro x hx y hy z
  simp only [List.mem_cons, List.mem_singleton, List.not_mem_nil, or_false] at hx hy
  rcases hx with rfl | rfl | rfl | rfl <;> rcases hy with rfl | rfl | rfl | rfl <;> rfl

/-- C9: from any builder state, the four setters `Field`, `Format`, `Script` and
`Meta`, called once each, lead to the same builder state in whatever order they are
called: the state of the chain `Field`, `Format`, `Script`, `Meta`.  The reverse
order and every other permutation of the calls therefore give the same state and
the same output of `Source()`, result or error. -/
theorem setters_commute (a : StatsAggregation) (field format : String)
    (script : Option Script) (metaData : Option (GoMap Value)) (calls : List Setter)
    (h : calls.Perm [Setter.Field field, Setter.Format format, Setter.Script script,
      Setter.Meta metaData]) :
    callAll a calls = (((a.Field field).Format format).Script script).Meta metaData ∧
      callAll a calls.reverse = callAll a calls ∧
      (∀ calls', calls'.Perm calls → callAll a calls' = callAll a calls) ∧
      (∀ order, (callAll a calls.reverse).Source order = (callAll a calls).Source order) ∧
      (∀ calls' order, calls'.Perm calls →
        (callAll a calls').Source order = (callAll a calls).Source order) := by
  have hbase : ∀ l : List Setter,
      l.Perm [Setter.Field field, Setter.Format format, Setter.Script script,
        Setter.Meta metaData] →
      callAll a l = (((a.Field field).Format format).Script script).Meta metaData := by
    intro l hl
    unfold callAll
    rw [← List.Perm.foldl_eq' hl.symm (call_comm field format script metaData) a]
    rfl
  have hperm : ∀ calls', calls'.Perm calls → callAll a calls' = callAll a calls :=
    fun calls' hc => (hbase calls' (hc.trans h)).trans (hbase calls h).symm
  have hrev : callAll a calls.reverse = callAll a calls :=
    hperm calls.reverse (List.reverse_perm calls)
  refine ⟨hbase calls h, hrev, hperm, ?_, ?_⟩
  · intro order
    rw [hrev]
  · intro calls' order hc
    rw [hperm calls' hc]

theorem setters_commute_witness :
    [Setter.Meta (some sampleMeta), Setter.Script (some failingScript),
        Setter.Format "0.0", Setter.Field "age"].Perm
      [Setter.Field "age", Setter.Format "0.0", Setter.Script (some failingScript),
        Setter.Meta (some sampleMeta)] ∧
    (callAll sampleBuilder [Setter.Meta (some sampleMeta), Setter.Script (some failingScript),
          Setter.Format "0.0", Setter.Field "age"] =
        (((sampleBuilder.Field "age").Format "0.0").Script (some failingScript)).Meta
          (some sampleMeta) ∧
      callAll sampleBuilder [Setter.Meta (some sampleMeta),
          Setter.Script (some failingScript), Setter.Format "0.0",
          Setter.Field "age"].reverse =
        callAll sampleBuilder [Setter.Meta (some sampleMeta),
          Setter.Script (some failingScript), Setter.Format "0.0", Setter.Field "age"] ∧
      (∀ calls', calls'.Perm [Setter.Meta (some sampleMeta),
          Setter.Script (some failingScript), Setter.Format "0.0", Setter.Field "age"] →
        callAll sampleBuilder calls' =
          callAll sampleBuilder [Setter.Meta (some sampleMeta),
            Setter.Script (some failingScript), Setter.Format "0.0", Setter.Field "age"]) ∧
      (∀ order, (callAll sampleBuilder [Setter.Meta (some sampleMeta),
          Setter.Script (some failingScript), Setter.Format "0.0",
          Setter.Field "age"].reverse).Source order =
        (callAll sampleBuilder [Setter.Meta (some sampleMeta),
          Setter.Script (some failingScript), Setter.Format "0.0",
          Setter.Field "age"]).Source order) ∧
      (∀ calls' order, calls'.Perm [Setter.Meta (some sampleMeta),
          Setter.Script (some failingScript), Setter.Format "0.0", Setter.Field "age"] →
        (callAll sampleBuilder calls').Source order =
          (callAll sampleBuilder [Setter.Meta (some sampleMeta),
            Setter.Script (some failingScript), Setter.Format "0.0",
            Setter.Field "age"]).Source order)) :=
  ⟨List.reverse_perm [Setter.Field "age", Setter.Format "0.0",
      Setter.Script (some failingScript), Setter.Meta (some sampleMeta)],
    setters_commute sampleBuilder "age" "0.0" (some failingScript) (some sampleMeta)
      [Setter.Meta (some sampleMeta), Setter.Script (some failingScript),
        Setter.Format "0.0", Setter.Field "age"]
      (List.reverse_perm [Setter.Field "age", Setter.Format "0.0",
        Setter.Script (some failingScript), Setter.Meta (some sampleMeta)])⟩

/-- C10: when the script (if any) and every sub-aggregation serialise, the `"stats"`
object of the result of `Source()` has the key `"script"` exactly when a script is
attached, bound to the output of the script's own `Source()`; this does not depend
on the field, so with a non-empty field and a script the `"stats"` object has both
the key `"field"` and the key `"script"`. -/
theorem Source_stats_script (a : StatsAggregation) (order : List (String × Aggregation))
    (hord : VisitOrder a order) (hs : ScriptSucceeds a) (hsub : SubAggregationsSucceed a) :
    ∃ source opts, a.Source order = (Value.map source, none) ∧
      mapLookup "stats" source = some (Value.map opts) ∧
      ("script" ∈ mapKeys opts ↔ a.script ≠ none) ∧
      (∀ s, a.script = some s → mapLookup "script" opts = some s.Source.1) ∧
      (a.field ≠ "" → a.script ≠ none →
        "field" ∈ mapKeys opts ∧ "script" ∈ mapKeys opts) := by
  have hscript : "script" ∈ mapKeys (statsOptions a) ↔ a.script ≠ none := by
    rw [mem_mapKeys_iff, mapLookup_script_statsOptions]
    cases a.script <;> simp
  refine ⟨sourceOf a order, statsOptions a,
    Source_of_succeed a order hs (succeed_of_visitOrder hord hsub),
    mapLookup_stats_sourceOf a order, hscript, ?_, ?_⟩
  · intro s h
    rw [mapLookup_script_statsOptions, h]
    rfl
  · intro hfield hsome
    refine ⟨?_, hscript.mpr hsome⟩
    rw [mem_mapKeys_iff, mapLookup_field_statsOptions, if_pos hfield]
    exact ⟨_, rfl⟩

theorem Source_stats_script_witness :
    VisitOrder sampleBuilder sampleOrder ∧ ScriptSucceeds sampleBuilder ∧
      SubAggregationsSucceed sampleBuilder ∧
      ∃ source opts, sampleBuilder.Source sampleOrder = (Value.map source, none) ∧
        mapLookup "stats" source = some (Value.map opts) ∧
        ("script" ∈ mapKeys opts ↔ sampleBuilder.script ≠ none) ∧
        (∀ s, sampleBuilder.script = some s → mapLookup "script" opts = some s.Source.1) ∧
        (sampleBuilder.field ≠ "" → sampleBuilder.script ≠ none →
          "field" ∈ mapKeys opts ∧ "script" ∈ mapKeys opts) :=
  ⟨sampleBuilder_visitOrder, sampleBuilder_scriptSucceeds,
    sampleBuilder_subAggregationsSucceed,
    Source_stats_script sampleBuilder sampleOrder sampleBuilder_visitOrder
      sampleBuilder_scriptSucceeds sampleBuilder_subAggregationsSucceed⟩

/-! ## The shape of a successful result -/

theorem mem_mapKeys_mapAssign {α : Type} {k k' : String} {v : α} {l : List (String × α)}
    (h : k ∈ mapKeys (mapAssign k' v l)) : k = k' ∨ k ∈ mapKeys l := by
  obtain ⟨p, hp, rfl⟩ := List.mem_map.mp h
  rcases mem_mapAssign hp with hp | hp
  · exact Or.inl (by rw [hp])
  · exact Or.inr (List.mem_map_of_mem Prod.fst hp)

/-- When `Source` returns no error, no nested serialiser has failed. -/
theorem succeed_of_no_error (a : StatsAggregation) (order : List (String × Aggregation))
    (hord : VisitOrder a order) (h : (a.Source order).2 = none) :
    ScriptSucceeds a ∧ SubAggregationsSucceed a := by
  have hs : ScriptSucceeds a := by
    intro s hscript
    by_contra hne
    obtain ⟨e, he⟩ := Option.ne_none_iff_exists'.mp hne
    rw [Source_of_script_error a order s e hscript he] at h
    exact Option.some_ne_none e h
  refine ⟨hs, ?_⟩
  intro p hp
  by_contra hne
  obtain ⟨_, _, e, _, hsrc⟩ := Source_of_subAggregation_error a order hord hs ⟨p, hp, hne⟩
  rw [hsrc] at h
  exact Option.some_ne_none e h

theorem mem_mapKeys_assignScript (script : Option Script) {opts : List (String × Value)}
    {k : String} (h : k ∈ mapKeys (assignScript script opts)) :
    k = "script" ∨ k ∈ mapKeys opts := by
  cases script with
  | none => exact Or.inr h
  | some s => exact mem_mapKeys_mapAssign h

theorem mem_mapKeys_statsOptions (a : StatsAggregation) {k : String}
    (h : k ∈ mapKeys (statsOptions a)) : k = "field" ∨ k = "script" ∨ k = "format" := by
  have hfield : ∀ {k : String},
      k ∈ mapKeys (if a.field ≠ "" then mapAssign "field" (Value.str a.field) [] else []) →
      k = "field" := by
    intro k hk
    by_cases hf : a.field ≠ ""
    · rw [if_pos hf] at hk
      rcases mem_mapKeys_mapAssign hk with hk | hk
      · exact hk
      · simp [mapKeys] at hk
    · rw [if_neg hf] at hk
      simp [mapKeys] at hk
  have hscript : ∀ {k : String},
      k ∈ mapKeys (assignScript a.script
        (if a.field ≠ "" then mapAssign "field" (Value.str a.field) [] else [])) →
      k = "field" ∨ k = "script" ∨ k = "format" := by
    intro k hk
    rcases mem_mapKeys_assignScript a.script hk with hk | hk
    · exact Or.inr (Or.inl hk)
    · exact Or.inl (hfield hk)
  unfold statsOptions at h
  simp only at h
  by_cases hfmt : a.format ≠ ""
  · rw [if_pos hfmt] at h
    rcases mem_mapKeys_mapAssign h with h | h
    · exact Or.inr (Or.inr h)
    · exact hscript h
  · rw [if_neg hfmt] at h
    exact hscript h

theorem mem_mapKeys_sourceMeta (metaData : Option (GoMap Value))
    {source : List (String × Value)} {k : String}
    (h : k ∈ mapKeys (sourceMeta metaData source)) : k = "meta" ∨ k ∈ mapKeys source := by
  unfold sourceMeta at h
  cases metaData with
  | none => exact Or.inr h
  | some m =>
    simp only at h
    split_ifs at h
    · exact mem_mapKeys_mapAssign h
    · exact Or.inr h

theorem mem_mapKeys_sourceOf (a : StatsAggregation) (order : List (String × Aggregation))
    {k : String} (h : k ∈ mapKeys (sourceOf a order)) :
    k = "stats" ∨ k = "aggregations" ∨ k = "meta" := by
  unfold sourceOf at h
  simp only at h
  have hstats : ∀ {k : String},
      k ∈ mapKeys (mapAssign "stats" (Value.map (statsOptions a)) []) → k = "stats" := by
    intro k hk
    rcases mem_mapKeys_mapAssign hk with hk | hk
    · exact hk
    · simp [mapKeys] at hk
  rcases mem_mapKeys_sourceMeta a.meta h with h | h
  · exact Or.inr (Or.inr h)
  · by_cases hlen : mapLen a.subAggregations > 0
    · rw [if_pos hlen] at h
      rcases mem_mapKeys_mapAssign h with h | h
      · exact Or.inr (Or.inl h)
      · exact Or.inl (hstats h)
    · rw [if_neg hlen] at h
      exact Or.inl (hstats h)

/-- C11: every result that `Source()` returns without an error is a map that has the
key `"stats"` and no key other than `"stats"`, `"aggregations"` and `"meta"`; the
value under `"stats"` is a map with no key other than `"field"`, `"script"` and
`"format"`. -/
theorem Source_keys (a : StatsAggregation) (order : List (String × Aggregation))
    (hord : VisitOrder a order) (result : Value) (hres : a.Source order = (result, none)) :
    ∃ source opts, result = Value.map source ∧
      "stats" ∈ mapKeys source ∧
      (∀ k ∈ mapKeys source, k = "stats" ∨ k = "aggregations" ∨ k = "meta") ∧
      mapLookup "stats" source = some (Value.map opts) ∧
      (∀ k ∈ mapKeys opts, k = "field" ∨ k = "script" ∨ k = "format") := by
  have herr : (a.Source order).2 = none := by rw [hres]
  obtain ⟨hs, hsub⟩ := succeed_of_no_error a order hord herr
  have hsrc := Source_of_succeed a order hs (succeed_of_visitOrder hord hsub)
  rw [hres] at hsrc
  refine ⟨sourceOf a order, statsOptions a, congrArg Prod.fst hsrc, ?_,
    fun k hk => mem_mapKeys_sourceOf a order hk, mapLookup_stats_sourceOf a order,
    fun k hk => mem_mapKeys_statsOptions a hk⟩
  rw [mem_mapKeys_iff]
  exact ⟨_, mapLookup_stats_sourceOf a order⟩

theorem Source_keys_witness :
    VisitOrder sampleBuilder sampleOrder ∧
      sampleBuilder.Source sampleOrder =
        (Value.map
          [("aggregations", Value.map
              [("high", Value.map [("max", Value.map [("field", Value.str "grade")])]),
                ("low", Value.map [("min", Value.map [("field", Value.str "grade")])])]),
            ("meta", Value.map [("owner", Value.str "qa")]),
            ("stats", Value.map
              [("field", Value.str "grade"), ("format", Value.str "0.00"),
                ("script", Value.map [("inline", Value.str "doc.grade.value")])])], none) ∧
      ∃ source opts,
        Value.map
          [("aggregations", Value.map
              [("high", Value.map [("max", Value.map [("field", Value.str "grade")])]),
                ("low", Value.map [("min", Value.map [("field", Value.str "grade")])])]),
            ("meta", Value.map [("owner", Value.str "qa")]),
            ("stats", Value.map
              [("field", Value.str "grade"), ("format", Value.str "0.00"),
                ("script", Value.map [("inline", Value.str "doc.grade.value")])])] =
          Value.map source ∧
        "stats" ∈ mapKeys source ∧
        (∀ k ∈ mapKeys source, k = "stats" ∨ k = "aggregations" ∨ k = "meta") ∧
        mapLookup "stats" source = some (Value.map opts) ∧
        (∀ k ∈ mapKeys opts, k = "field" ∨ k = "script" ∨ k = "format") :=
  ⟨sampleBuilder_visitOrder, rfl,
    Source_keys sampleBuilder sampleOrder sampleBuilder_visitOrder _ rfl⟩

/-! ## Overwriting setters -/

theorem GoMap.ext_entries {α : Type} {m₁ m₂ : GoMap α} (h : m₁.entries = m₂.entries) :
    m₁ = m₂ := by
  cases m₁
  cases m₂
  simp only at h
  subst h
  rfl

theorem mapAssign_mapAssign_self {α : Type} (k : String) (v₁ v₂ : α) (l : List (String × α)) :
    mapAssign k v₂ (mapAssign k v₁ l) = mapAssign k v₂ l := by
  induction l with
  | nil => simp [mapAssign, keyLt_irrefl]
  | cons hd tl ih =>
    obtain ⟨k', v'⟩ := hd
    by_cases h₁ : keyLt k k'
    · simp [mapAssign, h₁, keyLt_irrefl]
    · by_cases h₂ : k = k'
      · subst h₂
        simp [mapAssign, keyLt_irrefl]
      · simp [mapAssign, h₁, h₂, ih]

theorem mem_mapKeys_mapAssign_self {α : Type} (k : String) (v : α) (l : List (String × α)) :
    k ∈ mapKeys (mapAssign k v l) := by
  rw [mem_mapKeys_iff]
  exact ⟨v, mapLookup_mapAssign_self k v l⟩

/-- On a builder that holds sub-aggregations and whose nested serialisers succeed,
the value under `"aggregations"` is the map of the sub-aggregations with every
aggregation replaced by its serialised form. -/
theorem aggregations_of_succeed (b : StatsAggregation) (m : GoMap Aggregation)
    (order : List (String × Aggregation)) (hm : b.subAggregations = some m)
    (hlen : 0 < m.entries.length) (hord : VisitOrder b order) (hs : ScriptSucceeds b)
    (hsub : SubAggregationsSucceed b) :
    b.Source order = (Value.map (sourceOf b order), none) ∧
      mapLookup "aggregations" (sourceOf b order) =
        some (Value.map (mapValues (fun g => g.Source.1) m.entries)) := by
  refine ⟨Source_of_succeed b order hs (succeed_of_visitOrder hord hsub), ?_⟩
  unfold VisitOrder at hord
  rw [hm] at hord
  have hlen' : mapLen b.subAggregations > 0 := by
    rw [hm]
    exact hlen
  rw [mapLookup_aggregations_sourceOf, if_pos hlen', aggsMapOf_eq m hord]

/-- C12: `SubAggregation(name, agg)` inserts or overwrites.  After
`SubAggregation(name, a₁)` and then `SubAggregation(name, a₂)` the builder is the one
that `SubAggregation(name, a₂)` alone gives: it holds one entry for `name`, bound to
`a₂`, and the entries under the other names are those it had.  The `"aggregations"`
map of `Source()` then has one key for each name and binds `name` to the output of
`a₂`'s `Source()`. -/
theorem SubAggregation_overwrites (a : StatsAggregation) (m : GoMap Aggregation)
    (name : String) (a₁ a₂ : Aggregation) (hm : a.subAggregations = some m) :
    ∃ b m', (a.SubAggregation name a₁).bind (fun b₁ => b₁.SubAggregation name a₂) = some b ∧
      a.SubAggregation name a₂ = some b ∧
      b.subAggregations = some m' ∧
      m'.lookup name = some a₂ ∧
      (mapKeys m'.entries).count name = 1 ∧
      (∀ n, n ≠ name → m'.lookup n = m.lookup n) ∧
      (∀ order, VisitOrder b order → ScriptSucceeds b → SubAggregationsSucceed b →
        ∃ source aggsMap, b.Source order = (Value.map source, none) ∧
          mapLookup "aggregations" source = some (Value.map aggsMap) ∧
          mapKeys aggsMap = mapKeys m'.entries ∧
          (mapKeys aggsMap).Nodup ∧
          mapLookup name aggsMap = some a₂.Source.1) := by
  have hnd : (mapKeys (m.assign name a₂).entries).Nodup :=
    nodup_mapKeys_of_sorted (m.assign name a₂).sorted
  have hlook : (m.assign name a₂).lookup name = some a₂ :=
    mapLookup_mapAssign_self name a₂ m.entries
  refine ⟨{ a with subAggregations := some (m.assign name a₂) }, m.assign name a₂,
    ?_, ?_, rfl, hlook, ?_, ?_, ?_⟩
  · simp only [StatsAggregation.SubAggregation, hm, Option.bind]
    congr 3
    apply GoMap.ext_entries
    exact mapAssign_mapAssign_self name a₁ a₂ m.entries
  · simp only [StatsAggregation.SubAggregation, hm]
  · exact List.count_eq_one_of_mem hnd (mem_mapKeys_mapAssign_self name a₂ m.entries)
  · intro n hn
    exact mapLookup_mapAssign_ne hn a₂ m.entries
  · intro order hord hs hsub
    have hlen : 0 < (m.assign name a₂).entries.length :=
      List.length_pos_of_mem
        ((mapLookup_eq_some_iff hnd name a₂).mp hlook)
    obtain ⟨hsrc, hagg⟩ := aggregations_of_succeed _ (m.assign name a₂) order rfl hlen
      hord hs hsub
    refine ⟨_, _, hsrc, hagg, mapKeys_mapValues _ _, ?_, ?_⟩
    · rw [mapKeys_mapValues]
      exact hnd
    · rw [mapLookup_mapValues]
      have : mapLookup name (m.assign name a₂).entries = some a₂ := hlook
      rw [this]
      rfl

theorem SubAggregation_overwrites_witness :
    sampleBuilder.subAggregations =
        some ((GoMap.make.assign "low" sampleMin).assign "high" sampleMax) ∧
      ∃ b m',
        (sampleBuilder.SubAggregation "low" failingAggregation).bind
            (fun b₁ => b₁.SubAggregation "low" sampleMax) = some b ∧
          sampleBuilder.SubAggregation "low" sampleMax = some b ∧
          b.subAggregations = some m' ∧
          m'.lookup "low" = some sampleMax ∧
          (mapKeys m'.entries).count "low" = 1 ∧
          (∀ n, n ≠ "low" → m'.lookup n =
            ((GoMap.make.assign "low" sampleMin).assign "high" sampleMax).lookup n) ∧
          (∀ order, VisitOrder b order → ScriptSucceeds b → SubAggregationsSucceed b →
            ∃ source aggsMap, b.Source order = (Value.map source, none) ∧
              mapLookup "aggregations" source = some (Value.map aggsMap) ∧
              mapKeys aggsMap = mapKeys m'.entries ∧
              (mapKeys aggsMap).Nodup ∧
              mapLookup "low" aggsMap = some sampleMax.Source.1) :=
  ⟨rfl, SubAggregation_overwrites sampleBuilder
    ((GoMap.make.assign "low" sampleMin).assign "high" sampleMax) "low" failingAggregation
    sampleMax rfl⟩

/-- C13: `Meta` overwrites and does not merge: after `Meta(m₁)` and then `Meta(m₂)`
the builder is the one that `Meta(m₂)` alone gives, so the `"meta"` of `Source()` is
`m₂`, has no key that `m₂` lacks, and is left out when `m₂` is nil or empty, whatever
`m₁` was.  `Field` and `Format` keep the last value written as well: after
`Field(field₁)` and then `Field(field₂)` the builder's field is `field₂`, and
`Source()` emits `field₂` under `"field"` (or leaves the key out when `field₂` is
empty); likewise for `Format`. -/
theorem Meta_overwrites (a : StatsAggregation) (m₁ m₂ : Option (GoMap Value))
    (field₁ field₂ format₁ format₂ : String) :
    (a.Meta m₁).Meta m₂ = a.Meta m₂ ∧
      (a.Field field₁).Field field₂ = a.Field field₂ ∧
      (a.Format format₁).Format format₂ = a.Format format₂ ∧
      (∀ order, ((a.Meta m₁).Meta m₂).Source order = (a.Meta m₂).Source order) ∧
      (∀ order, VisitOrder a order → ScriptSucceeds a → SubAggregationsSucceed a →
        ∃ source, ((a.Meta m₁).Meta m₂).Source order = (Value.map source, none) ∧
          (mapLen m₂ = 0 → "meta" ∉ mapKeys source) ∧
          (∀ m, m₂ = some m → 0 < m.entries.length →
            mapLookup "meta" source = some (Value.map m.entries)) ∧
          (∀ metaMap, mapLookup "meta" source = some (Value.map metaMap) →
            ∀ k, k ∉ mapKeys (mapEntries m₂) → k ∉ mapKeys metaMap)) ∧
      ((a.Meta m₁).Meta m₂).meta = m₂ ∧
      ((a.Field field₁).Field field₂).field = field₂ ∧
      ((a.Format format₁).Format format₂).format = format₂ ∧
      (∀ order, VisitOrder a order → ScriptSucceeds a → SubAggregationsSucceed a →
        ∃ source opts,
          ((a.Field field₁).Field field₂).Source order = (Value.map source, none) ∧
          mapLookup "stats" source = some (Value.map opts) ∧
          mapLookup "field" opts =
            if field₂ ≠ "" then some (Value.str field₂) else none) ∧
      (∀ order, VisitOrder a order → ScriptSucceeds a → SubAggregationsSucceed a →
        ∃ source opts,
          ((a.Format format₁).Format format₂).Source order = (Value.map source, none) ∧
          mapLookup "stats" source = some (Value.map opts) ∧
          mapLookup "format" opts =
            if format₂ ≠ "" then some (Value.str format₂) else none) := by
  refine ⟨rfl, rfl, rfl, fun _ => rfl, ?_, rfl, rfl, rfl, ?_, ?_⟩
  · intro order hord hs hsub
    have hsrc : ((a.Meta m₁).Meta m₂).Source order =
        (Value.map (sourceOf ((a.Meta m₁).Meta m₂) order), none) :=
      Source_of_succeed _ order hs (succeed_of_visitOrder hord hsub)
    have hlook := mapLookup_meta_sourceOf ((a.Meta m₁).Meta m₂) order
    have hmeta : ((a.Meta m₁).Meta m₂).meta = m₂ := rfl
    rw [hmeta] at hlook
    refine ⟨_, hsrc, ?_, ?_, ?_⟩
    · intro hlen hmem
      rw [mem_mapKeys_iff, hlook] at hmem
      obtain ⟨v, hv⟩ := hmem
      cases m₂ with
      | none => simp at hv
      | some m =>
        simp only [mapLen] at hlen
        simp [hlen] at hv
    · intro m hm hlen
      rw [hlook, hm]
      simp only
      rw [if_pos hlen]
    · intro metaMap hmm k hk
      rw [hlook] at hmm
      cases m₂ with
      | none => simp at hmm
      | some m =>
        simp only at hmm
        split_ifs at hmm
        simp only [Option.some.injEq, Value.map.injEq] at hmm
        rw [← hmm]
        exact hk
  · intro order hord hs hsub
    have hfield : ((a.Field field₁).Field field₂).field = field₂ := rfl
    have hlook := mapLookup_field_statsOptions ((a.Field field₁).Field field₂)
    rw [hfield] at hlook
    exact ⟨_, _, Source_of_succeed ((a.Field field₁).Field field₂) order hs
      (succeed_of_visitOrder hord hsub),
      mapLookup_stats_sourceOf ((a.Field field₁).Field field₂) order, hlook⟩
  · intro order hord hs hsub
    have hformat : ((a.Format format₁).Format format₂).format = format₂ := rfl
    have hlook := mapLookup_format_statsOptions ((a.Format format₁).Format format₂)
    rw [hformat] at hlook
    exact ⟨_, _, Source_of_succeed ((a.Format format₁).Format format₂) order hs
      (succeed_of_visitOrder hord hsub),
      mapLookup_stats_sourceOf ((a.Format format₁).Format format₂) order, hlook⟩

theorem Meta_overwrites_witness :
    (sampleBuilder.Meta (some sampleMeta)).Meta (some GoMap.make) =
        sampleBuilder.Meta (some GoMap.make) ∧
      (sampleBuilder.Field "age").Field "height" = sampleBuilder.Field "height" ∧
      (sampleBuilder.Format "0.0").Format "0.000" = sampleBuilder.Format "0.000" ∧
      (∀ order, ((sampleBuilder.Meta (some sampleMeta)).Meta (some GoMap.make)).Source order =
        (sampleBuilder.Meta (some GoMap.make)).Source order) ∧
      (∀ order, VisitOrder sampleBuilder order → ScriptSucceeds sampleBuilder →
        SubAggregationsSucceed sampleBuilder →
        ∃ source,
          ((sampleBuilder.Meta (some sampleMeta)).Meta (some GoMap.make)).Source order =
              (Value.map source, none) ∧
            (mapLen (some (GoMap.make : GoMap Value)) = 0 → "meta" ∉ mapKeys source) ∧
            (∀ m, some (GoMap.make : GoMap Value) = some m → 0 < m.entries.length →
              mapLookup "meta" source = some (Value.map m.entries)) ∧
            (∀ metaMap, mapLookup "meta" source = some (Value.map metaMap) →
              ∀ k, k ∉ mapKeys (mapEntries (some (GoMap.make : GoMap Value))) →
                k ∉ mapKeys metaMap)) ∧
      ((sampleBuilder.Meta (some sampleMeta)).Meta (some GoMap.make)).meta =
        some GoMap.make ∧
      ((sampleBuilder.Field "age").Field "height").field = "height" ∧
      ((sampleBuilder.Format "0.0").Format "0.000").format = "0.000" ∧
      (∀ order, VisitOrder sampleBuilder order → ScriptSucceeds sampleBuilder →
        SubAggregationsSucceed sampleBuilder →
        ∃ source opts,
          ((sampleBuilder.Field "age").Field "height").Source order =
              (Value.map source, none) ∧
            mapLookup "stats" source = some (Value.map opts) ∧
            mapLookup "field" opts =
              if "height" ≠ "" then some (Value.str "height") else none) ∧
      (∀ order, VisitOrder sampleBuilder order → ScriptSucceeds sampleBuilder →
        SubAggregationsSucceed sampleBuilder →
        ∃ source opts,
          ((sampleBuilder.Format "0.0").Format "0.000").Source order =
              (Value.map source, none) ∧
            mapLookup "stats" source = some (Value.map opts) ∧
            mapLookup "format" opts =
              if "0.000" ≠ "" then some (Value.str "0.000") else none) :=
  Meta_overwrites sampleBuilder (some sampleMeta) (some GoMap.make) "age" "height" "0.0"
    "0.000"

/-! ## Frame properties of the methods -/

theorem storeWrite_same (σ : Store) (p : ℕ) (b : StatsAggregation) :
    storeWrite σ p b p = some b := by
  simp [storeWrite]

theorem storeWrite_other (σ : Store) (p : ℕ) (b : StatsAggregation) {q : ℕ} (h : q ≠ p) :
    storeWrite σ p b q = σ q := by
  simp [storeWrite, h]

/-- C14: every setter returns the pointer it was called on, leaves the builders at
the other addresses as they were, and changes only its own component of the builder:
`Field` only `field`, `Script` only `script`, `Format` only `format`, `Meta` only
`meta`, and `SubAggregation` only the entry of `subAggregations` under the given
name. -/
theorem setters_frame (σ : Store) (a : ℕ) (b : StatsAggregation) (hb : σ a = some b)
    (field format name : String) (script : Option Script) (metaData : Option (GoMap Value))
    (subAggregation : Aggregation) :
    (∃ σ' b', FieldAt σ a field = some (σ', a) ∧ σ' a = some b' ∧
        (∀ q, q ≠ a → σ' q = σ q) ∧
        b'.field = field ∧ b'.script = b.script ∧ b'.format = b.format ∧
        b'.subAggregations = b.subAggregations ∧ b'.meta = b.meta) ∧
      (∃ σ' b', ScriptAt σ a script = some (σ', a) ∧ σ' a = some b' ∧
        (∀ q, q ≠ a → σ' q = σ q) ∧
        b'.field = b.field ∧ b'.script = script ∧ b'.format = b.format ∧
        b'.subAggregations = b.subAggregations ∧ b'.meta = b.meta) ∧
      (∃ σ' b', FormatAt σ a format = some (σ', a) ∧ σ' a = some b' ∧
        (∀ q, q ≠ a → σ' q = σ q) ∧
        b'.field = b.field ∧ b'.script = b.script ∧ b'.format = format ∧
        b'.subAggregations = b.subAggregations ∧ b'.meta = b.meta) ∧
      (∃ σ' b', MetaAt σ a metaData = some (σ', a) ∧ σ' a = some b' ∧
        (∀ q, q ≠ a → σ' q = σ q) ∧
        b'.field = b.field ∧ b'.script = b.script ∧ b'.format = b.format ∧
        b'.subAggregations = b.subAggregations ∧ b'.meta = metaData) ∧
      (∀ m, b.subAggregations = some m →
        ∃ σ' b' m', SubAggregationAt σ a name subAggregation = some (σ', a) ∧
          σ' a = some b' ∧ (∀ q, q ≠ a → σ' q = σ q) ∧
          b'.field = b.field ∧ b'.script = b.script ∧ b'.format = b.format ∧
          b'.meta = b.meta ∧ b'.subAggregations = some m' ∧
          m'.lookup name = some subAggregation ∧
          (∀ n, n ≠ name → m'.lookup n = m.lookup n)) := by
  refine ⟨?_, ?_, ?_, ?_, ?_⟩
  · exact ⟨storeWrite σ a (b.Field field), b.Field field, by simp [FieldAt, hb],
      storeWrite_same _ _ _, fun q hq => storeWrite_other _ _ _ hq, rfl, rfl, rfl, rfl, rfl⟩
  · exact ⟨storeWrite σ a (b.Script script), b.Script script, by simp [ScriptAt, hb],
      storeWrite_same _ _ _, fun q hq => storeWrite_other _ _ _ hq, rfl, rfl, rfl, rfl, rfl⟩
  · exact ⟨storeWrite σ a (b.Format format), b.Format format, by simp [FormatAt, hb],
      storeWrite_same _ _ _, fun q hq => storeWrite_other _ _ _ hq, rfl, rfl, rfl, rfl, rfl⟩
  · exact ⟨storeWrite σ a (b.Meta metaData), b.Meta metaData, by simp [MetaAt, hb],
      storeWrite_same _ _ _, fun q hq => storeWrite_other _ _ _ hq, rfl, rfl, rfl, rfl, rfl⟩
  · intro m hm
    refine ⟨storeWrite σ a { b with subAggregations := some (m.assign name subAggregation) },
      { b with subAggregations := some (m.assign name subAggregation) },
      m.assign name subAggregation, ?_, storeWrite_same _ _ _,
      fun q hq => storeWrite_other _ _ _ hq, rfl, rfl, rfl, rfl, rfl,
      mapLookup_mapAssign_self name subAggregation m.entries,
      fun n hn => mapLookup_mapAssign_ne hn subAggregation m.entries⟩
    simp [SubAggregationAt, hb, StatsAggregation.SubAggregation, hm]

theorem setters_frame_witness :
    sampleStore 0 = some sampleBuilder ∧
      ((∃ σ' b', FieldAt sampleStore 0 "age" = some (σ', 0) ∧ σ' 0 = some b' ∧
          (∀ q, q ≠ 0 → σ' q = sampleStore q) ∧
          b'.field = "age" ∧ b'.script = sampleBuilder.script ∧
          b'.format = sampleBuilder.format ∧
          b'.subAggregations = sampleBuilder.subAggregations ∧
          b'.meta = sampleBuilder.meta) ∧
        (∃ σ' b', ScriptAt sampleStore 0 none = some (σ', 0) ∧ σ' 0 = some b' ∧
          (∀ q, q ≠ 0 → σ' q = sampleStore q) ∧
          b'.field = sampleBuilder.field ∧ b'.script = none ∧
          b'.format = sampleBuilder.format ∧
          b'.subAggregations = sampleBuilder.subAggregations ∧
          b'.meta = sampleBuilder.meta) ∧
        (∃ σ' b', FormatAt sampleStore 0 "0.0" = some (σ', 0) ∧ σ' 0 = some b' ∧
          (∀ q, q ≠ 0 → σ' q = sampleStore q) ∧
          b'.field = sampleBuilder.field ∧ b'.script = sampleBuilder.script ∧
          b'.format = "0.0" ∧
          b'.subAggregations = sampleBuilder.subAggregations ∧
          b'.meta = sampleBuilder.meta) ∧
        (∃ σ' b', MetaAt sampleStore 0 none = some (σ', 0) ∧ σ' 0 = some b' ∧
          (∀ q, q ≠ 0 → σ' q = sampleStore q) ∧
          b'.field = sampleBuilder.field ∧ b'.script = sampleBuilder.script ∧
          b'.format = sampleBuilder.format ∧
          b'.subAggregations = sampleBuilder.subAggregations ∧ b'.meta = none) ∧
        (∀ m, sampleBuilder.subAggregations = some m →
          ∃ σ' b' m', SubAggregationAt sampleStore 0 "low" failingAggregation = some (σ', 0) ∧
            σ' 0 = some b' ∧ (∀ q, q ≠ 0 → σ' q = sampleStore q) ∧
            b'.field = sampleBuilder.field ∧ b'.script = sampleBuilder.script ∧
            b'.format = sampleBuilder.format ∧ b'.meta = sampleBuilder.meta ∧
            b'.subAggregations = some m' ∧
            m'.lookup "low" = some failingAggregation ∧
            (∀ n, n ≠ "low" → m'.lookup n = m.lookup n))) :=
  ⟨rfl, setters_frame sampleStore 0 sampleBuilder rfl "age" "0.0" "low" none none
    failingAggregation⟩

/-- When no nested serialiser fails, the result of `Source` is the same for every
order in which the loop may visit the sub-aggregations. -/
theorem Source_order_irrelevant (a : StatsAggregation)
    (order₁ order₂ : List (String × Aggregation)) (h₁ : VisitOrder a order₁)
    (h₂ : VisitOrder a order₂) (hs : ScriptSucceeds a) (hsub : SubAggregationsSucceed a) :
    a.Source order₁ = a.Source order₂ := by
  rw [Source_of_succeed a order₁ hs (succeed_of_visitOrder h₁ hsub),
    Source_of_succeed a order₂ hs (succeed_of_visitOrder h₂ hsub)]
  have haggs : aggsMapOf order₁ = aggsMapOf order₂ := by
    unfold VisitOrder at h₁ h₂
    cases hm : a.subAggregations with
    | none =>
      rw [hm] at h₁ h₂
      rw [List.Perm.eq_nil h₁, List.Perm.eq_nil h₂]
    | some m =>
      rw [hm] at h₁ h₂
      rw [aggsMapOf_eq m h₁, aggsMapOf_eq m h₂]
  unfold sourceOf
  rw [haggs]

/-- C16: `Source()` only reads the builder: the store after the call is the store
before it, so `field`, `script`, `format`, `subAggregations` and `meta` are as they
were; a second call, when the nested serialisers succeed, returns the result of the
first, whatever the two visiting orders are; and a setter called after `Source()`
does what it does when `Source()` has not been called. -/
theorem Source_readonly (σ : Store) (a : ℕ) (b : StatsAggregation) (hb : σ a = some b)
    (order₁ order₂ : List (String × Aggregation)) :
    (∃ r, SourceAt σ a order₁ = some (σ, r)) ∧
      (VisitOrder b order₁ → VisitOrder b order₂ → ScriptSucceeds b →
        SubAggregationsSucceed b →
        ∃ r, SourceAt σ a order₁ = some (σ, r) ∧
          (SourceAt σ a order₁).bind (fun x => SourceAt x.1 a order₂) = some (σ, r)) ∧
      (∀ field, (SourceAt σ a order₁).bind (fun x => FieldAt x.1 a field) =
        FieldAt σ a field) ∧
      (∀ script, (SourceAt σ a order₁).bind (fun x => ScriptAt x.1 a script) =
        ScriptAt σ a script) ∧
      (∀ format, (SourceAt σ a order₁).bind (fun x => FormatAt x.1 a format) =
        FormatAt σ a format) ∧
      (∀ name subAggregation,
        (SourceAt σ a order₁).bind (fun x => SubAggregationAt x.1 a name subAggregation) =
          SubAggregationAt σ a name subAggregation) ∧
      (∀ metaData, (SourceAt σ a order₁).bind (fun x => MetaAt x.1 a metaData) =
        MetaAt σ a metaData) := by
  have hsrc : ∀ order, SourceAt σ a order = some (σ, b.Source order) := by
    intro order
    simp [SourceAt, hb]
  refine ⟨⟨_, hsrc order₁⟩, ?_, ?_, ?_, ?_, ?_, ?_⟩
  · intro h₁ h₂ hs hsub
    refine ⟨b.Source order₁, hsrc order₁, ?_⟩
    rw [hsrc order₁, Option.bind, hsrc order₂,
      Source_order_irrelevant b order₁ order₂ h₁ h₂ hs hsub]
  all_goals
    intros
    rw [hsrc order₁]
    rfl

theorem Source_readonly_witness :
    sampleStore 0 = some sampleBuilder ∧
      ((∃ r, SourceAt sampleStore 0 sampleOrder = some (sampleStore, r)) ∧
        (VisitOrder sampleBuilder sampleOrder →
          VisitOrder sampleBuilder [("high", sampleMax), ("low", sampleMin)] →
          ScriptSucceeds sampleBuilder → SubAggregationsSucceed sampleBuilder →
          ∃ r, SourceAt sampleStore 0 sampleOrder = some (sampleStore, r) ∧
            (SourceAt sampleStore 0 sampleOrder).bind
                (fun x => SourceAt x.1 0 [("high", sampleMax), ("low", sampleMin)]) =
              some (sampleStore, r)) ∧
        (∀ field, (SourceAt sampleStore 0 sampleOrder).bind (fun x => FieldAt x.1 0 field) =
          FieldAt sampleStore 0 field) ∧
        (∀ script, (SourceAt sampleStore 0 sampleOrder).bind
            (fun x => ScriptAt x.1 0 script) =
          ScriptAt sampleStore 0 script) ∧
        (∀ format, (SourceAt sampleStore 0 sampleOrder).bind
            (fun x => FormatAt x.1 0 format) =
          FormatAt sampleStore 0 format) ∧
        (∀ name subAggregation,
          (SourceAt sampleStore 0 sampleOrder).bind
              (fun x => SubAggregationAt x.1 0 name subAggregation) =
            SubAggregationAt sampleStore 0 name subAggregation) ∧
        (∀ metaData, (SourceAt sampleStore 0 sampleOrder).bind
            (fun x => MetaAt x.1 0 metaData) =
          MetaAt sampleStore 0 metaData)) :=
  ⟨rfl, Source_readonly sampleStore 0 sampleBuilder rfl sampleOrder
    [("high", sampleMax), ("low", sampleMin)]⟩

/-! ## The sub-aggregation map is initialised -/

theorem BuilderCall.run_initialised {a : StatsAggregation} (c : BuilderCall)
    (h : a.subAggregations ≠ none) :
    ∃ b, BuilderCall.run a c = some b ∧ b.subAggregations ≠ none := by
  cases c with
  | Field field => exact ⟨a.Field field, rfl, h⟩
  | Script script => exact ⟨a.Script script, rfl, h⟩
  | Format format => exact ⟨a.Format format, rfl, h⟩
  | Meta metaData => exact ⟨a.Meta metaData, rfl, h⟩
  | SubAggregation name subAggregation =>
    cases hm : a.subAggregations with
    | none => exact absurd hm h
    | some m =>
      refine ⟨{ a with subAggregations := some (m.assign name subAggregation) }, ?_, ?_⟩
      · simp [BuilderCall.run, StatsAggregation.SubAggregation, hm]
      · simp

theorem runCalls_initialised (calls : List BuilderCall) {a : StatsAggregation}
    (h : a.subAggregations ≠ none) :
    ∃ b, runCalls a calls = some b ∧ b.subAggregations ≠ none := by
  induction calls generalizing a with
  | nil => exact ⟨a, rfl, h⟩
  | cons c rest ih =>
    obtain ⟨b, hrun, hb⟩ := BuilderCall.run_initialised c h
    obtain ⟨b', hrest, hb'⟩ := ih hb
    exact ⟨b', by simp [runCalls, hrun, hrest], hb'⟩

/-- C17: `NewStatsAggregation` allocates the sub-aggregation map, empty, and every
setter leaves it allocated: every chain of `Field`, `Script`, `Format`,
`SubAggregation` and `Meta` calls from `NewStatsAggregation()` runs to its end
without a panic and reaches a builder whose map is not nil, on which `SubAggregation`
does not panic either. -/
theorem subAggregations_initialised (calls : List BuilderCall) :
    NewStatsAggregation.subAggregations = some GoMap.make ∧
      mapLen NewStatsAggregation.subAggregations = 0 ∧
      ∃ b m, runCalls NewStatsAggregation calls = some b ∧
        b.subAggregations = some m ∧
        ∀ name subAggregation, ∃ b', b.SubAggregation name subAggregation = some b' := by
  refine ⟨rfl, rfl, ?_⟩
  have hnew : NewStatsAggregation.subAggregations ≠ none := by
    simp [NewStatsAggregation]
  obtain ⟨b, hrun, hb⟩ := runCalls_initialised calls hnew
  cases hm : b.subAggregations with
  | none => exact absurd hm hb
  | some m =>
    refine ⟨b, m, hrun, hm, ?_⟩
    intro name subAggregation
    refine ⟨{ b with subAggregations := some (m.assign name subAggregation) }, ?_⟩
    simp [StatsAggregation.SubAggregation, hm]

/-! ## The nested calls of `Source` -/

theorem sourceScriptTraced_fst (script : Option Script) (opts : List (String × Value)) :
    (sourceScriptTraced script opts).1 = sourceScript script opts := by
  cases script with
  | none => rfl
  | some s =>
    rcases hsrc : s.Source with ⟨src, err⟩
    cases err <;> simp [sourceScriptTraced, sourceScript, hsrc]

theorem rangeSubAggregationsTraced_fst (order : List (String × Aggregation))
    (aggsMap : List (String × Value)) :
    (rangeSubAggregationsTraced order aggsMap).1 = rangeSubAggregations order aggsMap := by
  induction order generalizing aggsMap with
  | nil => rfl
  | cons hd tl ih =>
    obtain ⟨name, aggregate⟩ := hd
    rcases hsrc : aggregate.Source with ⟨src, err⟩
    cases err with
    | some e => simp [rangeSubAggregationsTraced, rangeSubAggregations, hsrc]
    | none => simp [rangeSubAggregationsTraced, rangeSubAggregations, hsrc, ih]

theorem sourceSubAggregationsTraced_fst (subAggregations : Option (GoMap Aggregation))
    (order : List (String × Aggregation)) (source : List (String × Value)) :
    (sourceSubAggregationsTraced subAggregations order source).1 =
      sourceSubAggregations subAggregations order source := by
  unfold sourceSubAggregationsTraced sourceSubAggregations
  by_cases hlen : mapLen subAggregations > 0
  · rw [if_pos hlen, if_pos hlen, ← rangeSubAggregationsTraced_fst]
    rcases rangeSubAggregationsTraced order [] with ⟨⟨aggsMap, err⟩, calls⟩
    cases err <;> rfl
  · rw [if_neg hlen, if_neg hlen]

/-- The traced method returns what `Source` returns. -/
theorem SourceTraced_fst (a : StatsAggregation) (order : List (String × Aggregation)) :
    (a.SourceTraced order).1 = a.Source order := by
  unfold StatsAggregation.SourceTraced StatsAggregation.Source
  simp only
  rw [← sourceScriptTraced_fst]
  rcases sourceScriptTraced a.script
    (if a.field ≠ "" then mapAssign "field" (Value.str a.field) [] else [])
    with ⟨⟨opts, err⟩, calls⟩
  cases err with
  | some e => rfl
  | none =>
    simp only
    rw [← sourceSubAggregationsTraced_fst]
    rcases sourceSubAggregationsTraced a.subAggregations order
      (mapAssign "stats" (Value.map
        (if a.format ≠ "" then mapAssign "format" (Value.str a.format) opts else opts)) [])
      with ⟨⟨source, err'⟩, calls'⟩
    cases err' <;> rfl

/-- C18: when the attached script's `Source()` fails, `Source()` returns at once:
the script's `Source()` is the only nested call made, no sub-aggregation's `Source()`
is called, and the outcome is the same for every builder that differs from this one
in its sub-aggregations only, whatever the visiting order. -/
theorem Source_script_error_first (a : StatsAggregation)
    (order : List (String × Aggregation)) (s : Script) (e : GoError)
    (hscript : a.script = some s) (herr : s.Source.2 = some e) :
    (a.SourceTraced order).1 = a.Source order ∧
      a.SourceTraced order = ((Value.nil, some e), [Invocation.script]) ∧
      (∀ name, Invocation.subAggregation name ∉ (a.SourceTraced order).2) ∧
      (∀ subAggregations order',
        ({ a with subAggregations := subAggregations } : StatsAggregation).Source order' =
          a.Source order) := by
  have htr : a.SourceTraced order = ((Value.nil, some e), [Invocation.script]) := by
    rcases hsrc : s.Source with ⟨src, err⟩
    rw [hsrc] at herr
    simp only at herr
    subst herr
    simp [StatsAggregation.SourceTraced, sourceScriptTraced, hscript, hsrc]
  refine ⟨SourceTraced_fst a order, htr, ?_, ?_⟩
  · intro name hmem
    rw [htr] at hmem
    simp at hmem
  · intro subAggregations order'
    rw [Source_of_script_error a order s e hscript herr]
    exact Source_of_script_error _ order' s e hscript herr

theorem Source_script_error_first_witness :
    brokenScriptBuilder.script = some failingScript ∧
      failingScript.Source.2 = some scriptError ∧
      ((brokenScriptBuilder.SourceTraced brokenSubOrder).1 =
          brokenScriptBuilder.Source brokenSubOrder ∧
        brokenScriptBuilder.SourceTraced brokenSubOrder =
          ((Value.nil, some scriptError), [Invocation.script]) ∧
        (∀ name, Invocation.subAggregation name ∉
          (brokenScriptBuilder.SourceTraced brokenSubOrder).2) ∧
        (∀ subAggregations order',
          ({ brokenScriptBuilder with subAggregations := subAggregations } :
            StatsAggregation).Source order' = brokenScriptBuilder.Source brokenSubOrder)) :=
  ⟨rfl, rfl,
    Source_script_error_first brokenScriptBuilder brokenSubOrder failingScript scriptError
      rfl rfl⟩

/-- A write to the nil map is a panic: the branch that the initialised map keeps
out of reach. -/
theorem SubAggregation_nil (a : StatsAggregation) (name : String)
    (subAggregation : Aggregation) (h : a.subAggregations = none) :
    a.SubAggregation name subAggregation = none := by
  simp [StatsAggregation.SubAggregation, h]

/-! ## The order of insertion -/

theorem mapAssign_comm {α : Type} {k₁ k₂ : String} (h : k₁ ≠ k₂) (v₁ v₂ : α)
    {l : List (String × α)} (hl : SortedKeys l) :
    mapAssign k₁ v₁ (mapAssign k₂ v₂ l) = mapAssign k₂ v₂ (mapAssign k₁ v₁ l) := by
  apply sortedKeys_ext
    (sortedKeys_mapAssign _ _ (sortedKeys_mapAssign _ _ hl))
    (sortedKeys_mapAssign _ _ (sortedKeys_mapAssign _ _ hl))
  intro k
  by_cases h₁ : k = k₁
  · subst h₁
    rw [mapLookup_mapAssign_self, mapLookup_mapAssign_ne h, mapLookup_mapAssign_self]
  · by_cases h₂ : k = k₂
    · subst h₂
      rw [mapLookup_mapAssign_ne h₁, mapLookup_mapAssign_self, mapLookup_mapAssign_self]
    · rw [mapLookup_mapAssign_ne h₁, mapLookup_mapAssign_ne h₂, mapLookup_mapAssign_ne h₂,
        mapLookup_mapAssign_ne h₁]

theorem GoMap.assign_comm {α : Type} (m : GoMap α) {k₁ k₂ : String} (h : k₁ ≠ k₂)
    (v₁ v₂ : α) : (m.assign k₂ v₂).assign k₁ v₁ = (m.assign k₁ v₁).assign k₂ v₂ :=
  GoMap.ext_entries (mapAssign_comm h v₁ v₂ m.sorted)

/-- Two insertions under different names can be exchanged. -/
theorem addSubAggregations_swap (a : StatsAggregation) (x y : String × Aggregation)
    (h : x.1 ≠ y.1) (l : List (String × Aggregation)) :
    addSubAggregations a (y :: x :: l) = addSubAggregations a (x :: y :: l) := by
  obtain ⟨k₁, v₁⟩ := x
  obtain ⟨k₂, v₂⟩ := y
  cases hm : a.subAggregations with
  | none => simp [addSubAggregations, StatsAggregation.SubAggregation, hm]
  | some m =>
    simp only [addSubAggregations, StatsAggregation.SubAggregation, hm]
    rw [GoMap.assign_comm m h v₁ v₂]

/-- The builder reached by a list of insertions under pairwise different names is
the same for every order of the list. -/
theorem addSubAggregations_perm {l₁ l₂ : List (String × Aggregation)} (hperm : l₁.Perm l₂)
    (hnd : (mapKeys l₁).Nodup) (a : StatsAggregation) :
    addSubAggregations a l₁ = addSubAggregations a l₂ := by
  induction hperm generalizing a with
  | nil => rfl
  | cons x _ ih =>
    obtain ⟨k, v⟩ := x
    simp only [mapKeys, List.map_cons, List.nodup_cons] at hnd
    simp only [addSubAggregations]
    cases a.SubAggregation k v with
    | none => rfl
    | some b => exact ih hnd.2 b
  | swap x y l =>
    simp only [mapKeys, List.map_cons, List.nodup_cons, List.mem_cons, not_or] at hnd
    exact addSubAggregations_swap a x y (fun h => hnd.1.1 h.symm) l
  | trans h₁ _ ih₁ ih₂ =>
    have hnd₂ := ((h₁.map Prod.fst).nodup_iff).mp hnd
    exact (ih₁ hnd a).trans (ih₂ hnd₂ a)

/-- C15: for sub-aggregations with pairwise different names, the order in which
`SubAggregation` adds them does not matter: two orders of insertion lead to the same
builder state and, when the nested serialisers succeed, to the same output of
`Source()`, whatever the two visiting orders of the loop are. -/
theorem SubAggregation_order_irrelevant (a : StatsAggregation)
    (l₁ l₂ : List (String × Aggregation)) (hperm : l₁.Perm l₂)
    (hnd : (mapKeys l₁).Nodup) :
    addSubAggregations a l₁ = addSubAggregations a l₂ ∧
      ∀ b₁ b₂ order₁ order₂, addSubAggregations a l₁ = some b₁ →
        addSubAggregations a l₂ = some b₂ → VisitOrder b₁ order₁ → VisitOrder b₂ order₂ →
        ScriptSucceeds b₁ → SubAggregationsSucceed b₁ →
        b₁ = b₂ ∧ b₁.Source order₁ = b₂.Source order₂ := by
  have heq := addSubAggregations_perm hperm hnd a
  refine ⟨heq, ?_⟩
  intro b₁ b₂ order₁ order₂ hb₁ hb₂ h₁ h₂ hs hsub
  rw [heq, hb₂] at hb₁
  have hb : b₂ = b₁ := Option.some.inj hb₁
  subst hb
  exact ⟨rfl, Source_order_irrelevant b₂ order₁ order₂ h₁ h₂ hs hsub⟩

theorem SubAggregation_order_irrelevant_witness :
    [("low", sampleMin), ("high", sampleMax)].Perm [("high", sampleMax), ("low", sampleMin)] ∧
      (mapKeys [("low", sampleMin), ("high", sampleMax)]).Nodup ∧
      (addSubAggregations plainBuilder [("low", sampleMin), ("high", sampleMax)] =
          addSubAggregations plainBuilder [("high", sampleMax), ("low", sampleMin)] ∧
        ∀ b₁ b₂ order₁ order₂,
          addSubAggregations plainBuilder [("low", sampleMin), ("high", sampleMax)] = some b₁ →
          addSubAggregations plainBuilder [("high", sampleMax), ("low", sampleMin)] = some b₂ →
          VisitOrder b₁ order₁ → VisitOrder b₂ order₂ →
          ScriptSucceeds b₁ → SubAggregationsSucceed b₁ →
          b₁ = b₂ ∧ b₁.Source order₁ = b₂.Source order₂) :=
  ⟨List.Perm.swap _ _ _, by decide,
    SubAggregation_order_irrelevant plainBuilder [("low", sampleMin), ("high", sampleMax)]
      [("high", sampleMax), ("low", sampleMin)] (List.Perm.swap _ _ _) (by decide)⟩

end Elastic
